import Mathlib

/-!
Verification of the `bot_trading_binance` repository.

This file shallowly embeds the parts of the repository's Python code that the
frozen claims are about, and proves or refutes each claim against that
embedding.  Conventions used throughout:

* Python floats are modelled as rationals (`ℚ`); the square roots appearing in
  the Sharpe-ratio computation are modelled exactly with `Real.sqrt`.
* A Python function that can raise an exception is modelled with
  `Except String α`; the string names the Python exception class.
* A Python function that returns `None` on some path returns an `Option`.
* Pandas timestamps are nanoseconds since the epoch (`ℕ`); the raw Binance
  timestamps are milliseconds since the epoch (`ℕ`).
-/

/-- Decidable equality of modelled Python results. -/
instance exceptDecEq {ε α : Type} [DecidableEq ε] [DecidableEq α] :
    DecidableEq (Except ε α)
  | .error a, .error b =>
    if h : a = b then .isTrue (by rw [h]) else .isFalse fun hc => h (Except.error.inj hc)
  | .error _, .ok _ => .isFalse fun hc => Except.noConfusion hc
  | .ok _, .error _ => .isFalse fun hc => Except.noConfusion hc
  | .ok a, .ok b =>
    if h : a = b then .isTrue (by rw [h]) else .isFalse fun hc => h (Except.ok.inj hc)

/-- Python `l[-k]` for `k ≥ 1`: valid exactly when `1 ≤ k ≤ len(l)`,
otherwise an `IndexError` is raised. -/
def pyNegGet (l : List ℚ) (k : ℕ) : Except String ℚ :=
  if 1 ≤ k ∧ k ≤ l.length then .ok (l.getD (l.length - k) 0) else .error "IndexError"

namespace simfile

/-! Embedding of `src/simulator.py`. -/

/-- `moving_average` from `simulator.py` (lines 21-24):
`if len(prices) < period: return None` and otherwise
`return sum(prices[-period:]) / period`.  With `period = 0` the guard is never
taken and the division raises `ZeroDivisionError`; `prices[-period:]` with
`1 ≤ period ≤ len(prices)` is `drop (len - period)`. -/
def moving_average (prices : List ℚ) (period : ℕ) : Except String (Option ℚ) :=
  if prices.length < period then .ok none
  else if period = 0 then .error "ZeroDivisionError"
  else .ok (some ((prices.drop (prices.length - period)).sum / (period : ℚ)))

/-- One pass of the `for i in range(1, period + 1)` loop of
`relative_strength_index` in `simulator.py`/`page.py`: `n` iterations remain,
`i` is the current loop index, `gains`/`losses` are the accumulators.
`change = prices[-i] - prices[-i - 1]`; a gain adds `change`, a loss adds
`abs(change)`. -/
def rsiLoop (prices : List ℚ) : ℕ → ℕ → ℚ → ℚ → Except String (ℚ × ℚ)
  | 0, _, gains, losses => .ok (gains, losses)
  | n + 1, i, gains, losses =>
    match pyNegGet prices i, pyNegGet prices (i + 1) with
    | .ok a, .ok b =>
      let change := a - b
      if change > 0 then rsiLoop prices n (i + 1) (gains + change) losses
      else if change < 0 then rsiLoop prices n (i + 1) gains (losses + |change|)
      else rsiLoop prices n (i + 1) gains losses
    | .error e, _ => .error e
    | .ok _, .error e => .error e

/-- `relative_strength_index` from `simulator.py` (lines 26-45): the guard is
`len(prices) < period + 1`. -/
def relative_strength_index (prices : List ℚ) (period : ℕ) : Except String (Option ℚ) :=
  if prices.length < period + 1 then .ok none
  else
    match rsiLoop prices period 1 0 0 with
    | .error e => .error e
    | .ok (gains, losses) =>
      let avg_gain := gains / (period : ℚ)
      let avg_loss := losses / (period : ℚ)
      if avg_loss = 0 then .ok (some 100)
      else .ok (some (100 - 100 / (1 + avg_gain / avg_loss)))

/-- A `transactions` entry of `simulator.py`'s `TradingBot`; both the `buy`
and the `sell` records carry an `entry_price` field.  `datetime.now()` is
modelled by an explicit `now` argument. -/
structure Transaction where
  ttype : String
  quantity : ℚ
  price : ℚ
  entry_price : Option ℚ
  timestamp : ℕ
  deriving DecidableEq, Repr

/-- The state of `simulator.py`'s `TradingBot` (lines 170-178). -/
structure TradingBot where
  initial_balance : ℚ
  current_balance : ℚ
  current_position : ℚ
  entry_price : Option ℚ
  transactions : List Transaction
  deriving DecidableEq, Repr

/-- `TradingBot.buy` from `simulator.py` (lines 191-206): deduct the
investment, add `investment_amount / price` BTC, record a `buy` transaction. -/
def TradingBot.buy (bot : TradingBot) (price investment_amount : ℚ) (now : ℕ) :
    TradingBot :=
  let quantity := investment_amount / price
  { bot with
    current_balance := bot.current_balance - investment_amount
    current_position := bot.current_position + quantity
    entry_price := some price
    transactions := bot.transactions ++
      [⟨"buy", quantity, price, some price, now⟩] }

/-- `TradingBot.sell` from `simulator.py` (lines 208-220): credit the sale,
append the `sell` record (with the pre-sale `current_position` as its
quantity), then reset the position to `0`. -/
def TradingBot.sell (bot : TradingBot) (price : ℚ) (now : ℕ) : TradingBot :=
  let sale_amount := bot.current_position * price
  let bot1 : TradingBot := { bot with current_balance := bot.current_balance + sale_amount }
  let bot2 : TradingBot := { bot1 with transactions := bot1.transactions ++
      [⟨"sell", bot1.current_position, price, bot1.entry_price, now⟩] }
  { bot2 with current_position := 0 }

end simfile

namespace pagefile

/-! Embedding of `src/page.py`. -/

/-- `moving_average` from `page.py` (lines 24-27); its body is identical to
the `simulator.py` version. -/
def moving_average (prices : List ℚ) (period : ℕ) : Except String (Option ℚ) :=
  if prices.length < period then .ok none
  else if period = 0 then .error "ZeroDivisionError"
  else .ok (some ((prices.drop (prices.length - period)).sum / (period : ℚ)))

/-- `relative_strength_index` from `page.py` (lines 30-48): unlike the
`simulator.py` version its guard is `len(prices) < period` (not
`period + 1`), yet the loop body still reads `prices[-i - 1]` up to
`i = period`. -/
def relative_strength_index (prices : List ℚ) (period : ℕ) : Except String (Option ℚ) :=
  if prices.length < period then .ok none
  else
    match simfile.rsiLoop prices period 1 0 0 with
    | .error e => .error e
    | .ok (gains, losses) =>
      let avg_gain := gains / (period : ℚ)
      let avg_loss := losses / (period : ℚ)
      if avg_loss = 0 then .ok (some 100)
      else .ok (some (100 - 100 / (1 + avg_gain / avg_loss)))

/-- A `transactions` entry of `page.py`'s `TradingBot`; unlike the
`simulator.py` records it has no `entry_price` field. -/
structure Transaction where
  ttype : String
  quantity : ℚ
  price : ℚ
  timestamp : ℕ
  deriving DecidableEq, Repr

/-- The state of `page.py`'s `TradingBot` (lines 143-151). -/
structure TradingBot where
  initial_balance : ℚ
  current_balance : ℚ
  current_position : ℚ
  entry_price : Option ℚ
  transactions : List Transaction
  deriving DecidableEq, Repr

/-- `TradingBot.buy` from `page.py` (lines 164-178). -/
def TradingBot.buy (bot : TradingBot) (price investment_amount : ℚ) (now : ℕ) :
    TradingBot :=
  let quantity := investment_amount / price
  { bot with
    current_balance := bot.current_balance - investment_amount
    current_position := bot.current_position + quantity
    entry_price := some price
    transactions := bot.transactions ++ [⟨"buy", quantity, price, now⟩] }

/-- `TradingBot.sell` from `page.py` (lines 180-191): the statement order is
`current_balance += sale_amount`, then `current_position = 0`, and only then
is the transaction record built, so its `quantity` field reads the already
reset `current_position`. -/
def TradingBot.sell (bot : TradingBot) (price : ℚ) (now : ℕ) : TradingBot :=
  let sale_amount := bot.current_position * price
  let bot1 : TradingBot := { bot with current_balance := bot.current_balance + sale_amount }
  let bot2 : TradingBot := { bot1 with current_position := 0 }
  { bot2 with transactions := bot2.transactions ++
      [⟨"sell", bot2.current_position, price, now⟩] }

end pagefile

namespace np

/-! Exact models of the numpy operations used by the two
`calculate_additional_metrics` versions. -/

/-- `np.mean`: the arithmetic mean (`0` on the empty list, where numpy gives
`NaN`; all uses below are guarded by non-emptiness). -/
def mean (l : List ℚ) : ℚ := l.sum / (l.length : ℚ)

/-- The square of `np.std` with the default `ddof = 0`. -/
def variance (l : List ℚ) : ℚ := ((l.map fun x => (x - mean l) ^ 2).sum) / (l.length : ℚ)

/-- `np.std` itself, an exact real number. -/
noncomputable def std (l : List ℚ) : ℝ := Real.sqrt ((variance l : ℚ) : ℝ)

/-- `np.diff`: successive first differences. -/
def diff : List ℚ → List ℚ
  | a :: b :: t => (b - a) :: diff (b :: t)
  | _ => []

/-- Ascending sort, as performed inside `np.percentile`. -/
def sortQ (l : List ℚ) : List ℚ := l.insertionSort (· ≤ ·)

/-- `np.percentile(l, 5)` with the default linear interpolation: the value at
fractional position `0.05 * (n - 1)` of the ascending sort. -/
def percentile05 (l : List ℚ) : ℚ :=
  let s := sortQ l
  let n := s.length
  let pos : ℚ := 5 * ((n : ℚ) - 1) / 100
  let i : ℕ := (⌊pos⌋).toNat
  let frac : ℚ := pos - (i : ℚ)
  if i + 1 < n then s.getD i 0 + frac * (s.getD (i + 1) 0 - s.getD i 0)
  else s.getD i 0

end np

/-- The Sharpe-ratio expression common to both versions of
`calculate_additional_metrics`:
`np.mean(x) / np.std(x) * np.sqrt(252) if np.std(x) > 0 else 0`. -/
noncomputable def sharpeFormula (l : List ℚ) : ℝ :=
  if 0 < np.std l then ((np.mean l : ℚ) : ℝ) / np.std l * Real.sqrt 252 else 0

/-- The expected-shortfall expression common to both versions:
`np.mean(x[x < np.percentile(x, 5)])`; `none` models the `NaN` numpy produces
when no value lies strictly below the 5th percentile. -/
def esFormula (l : List ℚ) : Option ℚ :=
  let p := np.percentile05 l
  let below := l.filter fun x => x < p
  if below.isEmpty then none else some (np.mean below)

/-- The summary statistics of `calculate_additional_metrics`: the three
metrics the claims mention (the field `sharpe` models the `sharpe_ratio`
dict entry) plus `max_consecutive_losses`, whose `max()` over an empty
sequence is the version's only exception on its happy path.  The
`profit_factor` and `avg_trade_duration` entries cannot raise and no claim
touches them; they are not modelled. -/
structure Metrics where
  sharpe : ℝ
  var : ℚ
  expected_shortfall : Option ℚ
  max_consecutive_losses : ℕ

/-- The lengths of the maximal runs of consecutive negative entries, as
`itertools.groupby(x < 0)` produces them; `cur` counts the current run. -/
def negRunLengths : List ℚ → ℕ → List ℕ
  | [], 0 => []
  | [], cur + 1 => [cur + 1]
  | x :: t, cur =>
    if x < 0 then negRunLengths t (cur + 1)
    else if cur = 0 then negRunLengths t 0 else cur :: negRunLengths t 0

/-- `max(len(list(g)) for k, g in itertools.groupby(x < 0) if k)`: the
longest run of consecutive losses — Python's `max` raises `ValueError` when
there is no loss at all. -/
def maxConsecutiveLosses (l : List ℚ) : Except String ℕ :=
  match (negRunLengths l 0).max? with
  | none => .error "ValueError"
  | some m => .ok m

/-- `returns.reshape(-1, 1440)` row by row: split into chunks of 1440. -/
def chunks1440 : List ℚ → List (List ℚ)
  | [] => []
  | a :: l => ((a :: l).take 1440) :: chunks1440 ((a :: l).drop 1440)
  termination_by l => l.length
  decreasing_by simp [List.length_drop]; omega

namespace results

/-! Embedding of `src/aggregator_scripts/backtesting_results.py`. -/

/-- One trade record appended by `backtest_strategy`; the `date` (the
dataframe's datetime index) is not modelled, and `ret` is the optional
`'return'` key that only `sell` records carry. -/
structure BTTrade where
  ttype : String
  price : ℚ
  ret : Option ℚ
  deriving DecidableEq, Repr

/-- One dataframe row as seen by `backtest_strategy`: the strategy's signal
column (`none` models `NaN`; the non-`NaN` values produced by `.diff()` of the
integer indicator columns are integers) and `avg_price`. -/
structure SignalRow where
  signal : Option ℤ
  avg_price : ℚ
  deriving DecidableEq, Repr

/-- The loop state of `backtest_strategy` (lines 62-98). -/
structure BTState where
  position : ℚ
  capital : ℚ
  entry_price : ℚ
  trades : List BTTrade
  equity_curve : List ℚ
  deriving DecidableEq, Repr

/-- One iteration of `for idx, row in df.iterrows()` in `backtest_strategy`:
a `NaN` signal appends `equity_curve[-1]` and continues; otherwise a buy/sell
may fire and `capital + position * price` is appended. -/
def btStep (st : BTState) (row : SignalRow) : BTState :=
  match row.signal with
  | none => { st with equity_curve := st.equity_curve ++ [st.equity_curve.getLastD 0] }
  | some s =>
    let price := row.avg_price
    let st1 : BTState :=
      if s = 1 ∧ st.position = 0 then
        { st with
          position := st.capital / price
          entry_price := price
          capital := 0
          trades := st.trades ++ [⟨"buy", price, none⟩] }
      else if s = -1 ∧ 0 < st.position then
        { st with
          capital := st.position * price
          trades := st.trades ++
            [⟨"sell", price, some ((price - st.entry_price) / st.entry_price * 100)⟩]
          position := 0 }
      else st
    { st1 with equity_curve := st1.equity_curve ++ [st1.capital + st1.position * price] }

/-- The max-drawdown loop of `backtest_strategy` (lines 107-114): `peak`
starts from `equity_curve[0]` and every entry of the curve (the seed entry
included) is folded over. -/
def ddLoop : ℚ → ℚ → List ℚ → ℚ
  | _, max_dd, [] => max_dd
  | peak, max_dd, v :: rest =>
    let peak1 := if peak < v then v else peak
    let dd := (peak1 - v) / peak1 * 100
    ddLoop peak1 (max max_dd dd) rest

/-- The dictionary `backtest_strategy` returns. -/
structure BTResult where
  final_return : ℚ
  win_rate : ℚ
  total_trades : ℕ
  max_drawdown : ℚ
  equity_curve : List ℚ
  trades : List BTTrade
  deriving DecidableEq, Repr

/-- The win-rate step of `backtest_strategy` (lines 101-105): `0` for an
empty trade list, otherwise `winning_trades / (len(trades) // 2) * 100` —
which raises `ZeroDivisionError` when `len(trades) // 2` is `0`, i.e. on
exactly one trade. -/
def winRateCalc (trades : List BTTrade) : Except String ℚ :=
  if trades.isEmpty then .ok 0
  else if trades.length / 2 = 0 then .error "ZeroDivisionError"
  else .ok ((((trades.filter fun t => 0 < t.ret.getD 0).length : ℚ) /
    ((trades.length / 2 : ℕ) : ℚ)) * 100)

/-- `backtest_strategy` from `backtesting_results.py` (lines 62-125) with
`initial_capital = 100000`.  The win rate is computed before the drawdown
and final return; when its division raises (`len(trades) == 1`) the
function returns nothing at all. -/
def backtest_strategy (rows : List SignalRow) : Except String BTResult :=
  let st := rows.foldl btStep ⟨0, 100000, 0, [], [100000]⟩
  match winRateCalc st.trades with
  | .error e => .error e
  | .ok win_rate =>
    let max_dd := ddLoop (st.equity_curve.headD 0) 0 st.equity_curve
    let final_return := (st.equity_curve.getLastD 0 - 100000) / 100000 * 100
    .ok ⟨final_return, win_rate, st.trades.length / 2, max_dd,
      st.equity_curve, st.trades⟩

/-- `calculate_additional_metrics` from `backtesting_results.py` (lines
143-173): percentage returns `np.diff(ec) / ec[:-1]`, reshaped into
1440-minute days and summed per day.  The reshape raises `ValueError` when
`len(returns)` is not a multiple of 1440, and the `max_consecutive_losses`
entry raises `ValueError` (`max()` of an empty sequence) whenever no daily
return is negative; either way the function returns nothing.  (The
`profit_factor` and `avg_trade_duration` entries cannot raise on this path
and no claim touches them; they are not modelled.) -/
noncomputable def calculate_additional_metrics (ec : List ℚ) : Except String Metrics :=
  let returns := List.zipWith (fun d p => d / p) (np.diff ec) ec.dropLast
  if 0 < returns.length then
    if 1440 ∣ returns.length then
      let daily_returns := (chunks1440 returns).map List.sum
      match maxConsecutiveLosses daily_returns with
      | .error e => .error e
      | .ok mcl =>
        .ok ⟨sharpeFormula daily_returns, np.percentile05 daily_returns,
          esFormula daily_returns, mcl⟩
    else .error "ValueError"
  else .ok ⟨0, 0, some 0, 0⟩

end results

namespace analysis

/-! Embedding of `src/aggregator_scripts/backtesting_analysis.py`. -/

/-- `calculate_additional_metrics` from `backtesting_analysis.py` (lines
5-29): identical metric formulas applied to the raw first differences
`np.diff(ec)` of the equity curve, with no reshaping.  On non-empty
differences the result dict is evaluated entry by entry — `sharpe_ratio`,
`profit_factor`, `var` and `expected_shortfall` are computed (they are
`sharpeFormula`, `np.percentile05` and `esFormula` applied to `np.diff ec`)
— and then the `beta` entry reads `strategy_results['price']`, a key no
strategy result has: the function raises `KeyError` and never returns (even
past that, `itertools` is not imported, so `max_consecutive_losses` would
raise `NameError`).  Only the empty-returns zero dict is ever returned. -/
noncomputable def calculate_additional_metrics (ec : List ℚ) : Except String Metrics :=
  let returns := np.diff ec
  if 0 < returns.length then .error "KeyError"
  else .ok ⟨0, 0, some 0, 0⟩

end analysis

namespace fetcher

/-! Embedding of `src/binance-real-time-fetcher.py` (the data path of
`BinanceRealtimeFetcher`). -/

/-- One buffered websocket trade, as appended by `on_message` (line 51):
`[timestamp, price, volume]` with the timestamp in milliseconds. -/
structure Trade where
  timestamp : ℕ
  price : ℚ
  volume : ℚ
  deriving DecidableEq, Repr

/-- `df['timestamp'].dt.floor('S')`: milliseconds floored to whole seconds. -/
def floorSec (ms : ℕ) : ℕ := ms / 1000

/-- One row of the aggregated 1-second dataframe: timestamp (in seconds),
mean price, summed volume. -/
structure Row where
  timestamp : ℕ
  price : ℚ
  volume : ℚ
  deriving DecidableEq, Repr

/-- The group keys of `df.groupby('timestamp')` in `aggregate_second_data`:
the distinct floored seconds, in ascending order. -/
def aggKeys (trades : List Trade) : List ℕ :=
  ((trades.map fun t => floorSec t.timestamp).dedup).insertionSort (· ≤ ·)

/-- One aggregated row of `aggregate_second_data`: mean price and total
volume of the trades falling in second `k`. -/
def aggRow (trades : List Trade) (k : ℕ) : Row :=
  let group := trades.filter fun t => floorSec t.timestamp = k
  ⟨k, (group.map Trade.price).sum / (group.length : ℚ),
    (group.map Trade.volume).sum⟩

/-- `aggregate_second_data` (lines 25-40): `None` on an empty list, otherwise
group by the floored second (pandas `groupby` yields the keys sorted and
deduplicated) taking the mean price and total volume per second. -/
def aggregate_second_data (trades : List Trade) : Option (List Row) :=
  if trades.isEmpty then none
  else some ((aggKeys trades).map (aggRow trades))

/-- `combined_df.drop_duplicates(subset=['timestamp'], keep='last')`: keep a
row exactly when no later row carries the same timestamp, preserving order. -/
def dropDupKeepLast (rows : List Row) : List Row :=
  rows.foldr
    (fun r acc => if acc.any fun x => x.timestamp = r.timestamp then acc else r :: acc) []

/-- `combined_df.sort_values('timestamp')`. -/
def sortRows (rows : List Row) : List Row :=
  rows.insertionSort fun a b => a.timestamp ≤ b.timestamp

/-- The state `save_to_parquet` acts on: the lock-protected in-memory buffer
and today's parquet file (`none` when `parquet_path.exists()` is false).  The
embedding assumes the write succeeds; the `except` clause around the file I/O
is not modelled. -/
structure FetcherState where
  current_second_data : List Trade
  file : Option (List Row)
  deriving DecidableEq, Repr

/-- `save_to_parquet` (lines 69-99): copy and clear the buffer under the
lock; if anything was buffered, aggregate it and either write the aggregation
directly (no existing file) or concatenate with the existing file, drop
duplicate timestamps keeping the last, sort by timestamp, and write that. -/
def save_to_parquet (s : FetcherState) : FetcherState :=
  let current_data := s.current_second_data
  let s1 : FetcherState := { s with current_second_data := [] }
  if current_data.isEmpty then s1
  else
    match aggregate_second_data current_data with
    | none => s1
    | some agg =>
      if agg.isEmpty then s1
      else
        match s1.file with
        | some existing =>
          { s1 with file := some (sortRows (dropDupKeepLast (existing ++ agg))) }
        | none => { s1 with file := some agg }

end fetcher

namespace lockmodel

/-! An interleaving model of the two threads of
`src/binance-real-time-fetcher.py` that touch `current_second_data`: the
websocket callback thread (running `on_message`, which appends under
`buffer_lock` and may itself call `save_to_parquet`) and the periodic save
thread (running `save_to_parquet`).  Program counters map to source lines:

producer thread (`on_message`, lines 50-63):
* `pcA = 0`: at `with self.buffer_lock` (line 50), not holding the lock;
* `pcA = 1`: holding, about to run the append (line 51);
* `pcA = 2`: holding, append done, about to leave the `with` block;
* `pcA = 3`: inside the inline `save_to_parquet()` call (line 63), at its
  `with self.buffer_lock` (line 70), not holding;
* `pcA = 4`: holding, about to copy the buffer (line 71);
* `pcA = 5`: holding, about to clear the buffer (line 72);
* `pcA = 6`: holding, about to leave the `with` block.

saver thread (`periodic_save` line 148 calling `save_to_parquet` lines
69-72):
* `pcB = 0`: at `with self.buffer_lock` (line 70), not holding;
* `pcB = 1`: holding, about to copy the buffer (line 71);
* `pcB = 2`: holding, about to clear the buffer (line 72);
* `pcB = 3`: holding, about to leave the `with` block. -/

/-- Thread identifiers. -/
inductive Tid
  | producer
  | saver
  deriving DecidableEq, Repr

/-- A global state of the interleaving: the two program counters, the owner
of `buffer_lock` (if any), `current_second_data`, and each thread's local
copy of the buffer. -/
structure St where
  pcA : ℕ
  pcB : ℕ
  lock : Option Tid
  buffer : List ℕ
  copiedA : List ℕ
  copiedB : List ℕ
  deriving DecidableEq, Repr

/-- One atomic step of either thread.  Acquiring blocks until the lock is
free; the buffer-touching instructions themselves carry no lock-side
condition — that they only ever run while their thread holds the lock is the
invariant to be proved, not an assumption. -/
inductive Step : St → St → Prop
  | acquireA (s : St) (h : s.lock = none) (hpc : s.pcA = 0) :
      Step s { s with lock := some .producer, pcA := 1 }
  | appendA (s : St) (d : ℕ) (hpc : s.pcA = 1) :
      Step s { s with buffer := s.buffer ++ [d], pcA := 2 }
  | releaseA (s : St) (hpc : s.pcA = 2) :
      Step s { s with lock := none, pcA := 0 }
  | releaseAtoSave (s : St) (hpc : s.pcA = 2) :
      Step s { s with lock := none, pcA := 3 }
  | acquireASave (s : St) (h : s.lock = none) (hpc : s.pcA = 3) :
      Step s { s with lock := some .producer, pcA := 4 }
  | copyA (s : St) (hpc : s.pcA = 4) :
      Step s { s with copiedA := s.buffer, pcA := 5 }
  | clearA (s : St) (hpc : s.pcA = 5) :
      Step s { s with buffer := [], pcA := 6 }
  | releaseASave (s : St) (hpc : s.pcA = 6) :
      Step s { s with lock := none, pcA := 0 }
  | acquireB (s : St) (h : s.lock = none) (hpc : s.pcB = 0) :
      Step s { s with lock := some .saver, pcB := 1 }
  | copyB (s : St) (hpc : s.pcB = 1) :
      Step s { s with copiedB := s.buffer, pcB := 2 }
  | clearB (s : St) (hpc : s.pcB = 2) :
      Step s { s with buffer := [], pcB := 3 }
  | releaseB (s : St) (hpc : s.pcB = 3) :
      Step s { s with lock := none, pcB := 0 }

/-- The initial state: both threads at their lock acquisition, lock free,
empty buffer. -/
def init : St := ⟨0, 0, none, [], [], []⟩

/-- States reachable in some interleaving of the two threads. -/
inductive Reachable : St → Prop
  | init : Reachable init
  | step {s s' : St} : Reachable s → Step s s' → Reachable s'

end lockmodel

/-- The outcome of `requests.get(...)` followed by
`response.raise_for_status()`: `reqError` covers every
`requests.exceptions.RequestException` (connection failure, timeout, bad
status code), `ok` carries the response body. -/
inductive HttpResult (α : Type)
  | reqError
  | ok (a : α)

/-- A JSON value in a Binance response, restricted to what the scripts
consume: `num` is any payload `float(...)` converts (numbers and numeric
strings, carried as the converted rational), `null` is a payload `float(...)`
rejects with a `TypeError`. -/
inductive JValue
  | num (q : ℚ)
  | null
  deriving DecidableEq, Repr

namespace simfile

/-- `get_current_price` from `simulator.py` (lines 9-18; `page.py` lines
12-21 is identical): a `RequestException` is caught (`st.error` printed) and
`None` returned; on a successful response `data['price']` raises an uncaught
`KeyError` when the key is missing, and `float(...)` an uncaught `TypeError`
on a non-convertible value; otherwise the price is returned. -/
def get_current_price (resp : HttpResult (List (String × JValue))) :
    Except String (Option ℚ) :=
  match resp with
  | .reqError => .ok none
  | .ok data =>
    match data.lookup "price" with
    | none => .error "KeyError"
    | some (.num q) => .ok (some q)
    | some .null => .error "TypeError"

end simfile

namespace importhist

/-! Embedding of `src/aggregator_scripts/import_hist.py`. -/

/-- One record of the vendor's daily aggTrades CSV, already carrying the
types pandas infers: in vendor order an aggregate-trade id, price, quantity,
first and last trade ids, a millisecond timestamp, and the two boolean
flags.  The CSV has no header; `col1` … `col8` are the positional columns. -/
structure RawAggTrade where
  col1 : ℤ
  col2 : ℚ
  col3 : ℚ
  col4 : ℤ
  col5 : ℤ
  col6 : ℕ
  col7 : Bool
  col8 : Bool
  deriving DecidableEq, Repr

/-- `pd.to_datetime(_, unit='ms')`: a millisecond epoch count becomes a
pandas datetime, i.e. a nanosecond epoch count. -/
def msToDatetime (ms : ℕ) : ℕ := ms * 1000000

/-- One row of the dataframe `download_binance_data` returns, with the eight
column names of lines 25-28 and `timestamp` already converted to datetime. -/
structure AggTradeRow where
  agg_trade_id : ℤ
  price : ℚ
  quantity : ℚ
  first_trade_id : ℤ
  last_trade_id : ℤ
  timestamp : ℕ
  is_buyer_maker : Bool
  is_best_match : Bool
  deriving DecidableEq, Repr

/-- The `pd.read_csv(..., names=[...])` plus
`df['timestamp'] = pd.to_datetime(df['timestamp'], unit='ms')` steps of
`download_binance_data` (lines 24-31). -/
def readAggTradesCsv (rows : List RawAggTrade) : List AggTradeRow :=
  rows.map fun r =>
    ⟨r.col1, r.col2, r.col3, r.col4, r.col5, msToDatetime r.col6, r.col7, r.col8⟩

/-- The body of a successful archive download: `corrupt` is a payload
`zipfile.ZipFile` rejects (`BadZipFile`), `missingEntry` an archive without
the expected CSV name (`KeyError`), `entry` the parsed CSV records. -/
inductive ZipBody
  | corrupt
  | missingEntry
  | entry (rows : List RawAggTrade)

/-- `download_binance_data` (lines 7-36): a `RequestException` is caught and
`None` returned; errors while opening the zip or the CSV entry after a
successful download propagate; otherwise the parsed dataframe is returned. -/
def download_binance_data (resp : HttpResult ZipBody) :
    Except String (Option (List AggTradeRow)) :=
  match resp with
  | .reqError => .ok none
  | .ok .corrupt => .error "BadZipFile"
  | .ok .missingEntry => .error "KeyError"
  | .ok (.entry rows) => .ok (some (readAggTradesCsv rows))

end importhist

namespace scriptfile

/-! Embedding of `src/aggregator_scripts/script.py` (the per-file CSV parse
of `process_trade_files`, lines 24-31). -/

/-- One row after `process_trade_files` reads a daily CSV: the same eight
positional columns as `import_hist.py` but with the first named `trade_id`,
the raw millisecond `timestamp` kept, and the converted `datetime` column
added alongside it. -/
structure ScriptRow where
  trade_id : ℤ
  price : ℚ
  quantity : ℚ
  first_trade_id : ℤ
  last_trade_id : ℤ
  timestamp : ℕ
  is_buyer_maker : Bool
  is_best_match : Bool
  datetime : ℕ
  deriving DecidableEq, Repr

/-- The `pd.read_csv(..., names=[...])` plus
`df['datetime'] = pd.to_datetime(df['timestamp'], unit='ms')` steps of
`process_trade_files`. -/
def readTradeCsv (rows : List importhist.RawAggTrade) : List ScriptRow :=
  rows.map fun r =>
    ⟨r.col1, r.col2, r.col3, r.col4, r.col5, r.col6, r.col7, r.col8,
      importhist.msToDatetime r.col6⟩

end scriptfile

namespace testpy

/-! Embedding of `src/test.py`. -/

/-- One kline record from `/api/v3/klines`, already carrying the types the
script produces: the numeric strings of the payload are carried as the
rationals `astype(float)` yields. -/
structure Kline where
  openTime : ℕ
  openP : ℚ
  highP : ℚ
  lowP : ℚ
  closeP : ℚ
  volume : ℚ
  closeTime : ℕ
  quoteVolume : ℚ
  tradeCount : ℕ
  takerBuyBase : ℚ
  takerBuyQuote : ℚ
  ignored : ℚ
  deriving DecidableEq, Repr

/-- One row of the dataframe `fetch_binance_data` returns: the datetime index
plus the five retained OHLCV columns. -/
structure OhlcvRow where
  timestamp : ℕ
  openP : ℚ
  highP : ℚ
  lowP : ℚ
  closeP : ℚ
  volume : ℚ
  deriving DecidableEq, Repr

/-- The body of a successful klines response: `notTabular` is a JSON payload
that is not a list of 12-field records, on which the `pd.DataFrame(...)`
construction raises `ValueError`; `klines` is the expected table. -/
inductive KlinesBody
  | notTabular
  | klines (rows : List Kline)

/-- `fetch_binance_data` from `test.py` (lines 6-65): a `RequestException`
is caught and `None` returned; a post-request failure while building the
dataframe propagates; otherwise the timestamp-indexed OHLCV dataframe is
returned. -/
def fetch_binance_data (resp : HttpResult KlinesBody) :
    Except String (Option (List OhlcvRow)) :=
  match resp with
  | .reqError => .ok none
  | .ok .notTabular => .error "ValueError"
  | .ok (.klines rows) =>
    .ok (some (rows.map fun r =>
      ⟨importhist.msToDatetime r.openTime, r.openP, r.highP, r.lowP, r.closeP,
        r.volume⟩))

end testpy

/-! ## Claim C6 -/

/-- Claim C6: `download_binance_data` reads the daily aggTrades CSV into
exactly the eight columns `agg_trade_id`, `price`, `quantity`,
`first_trade_id`, `last_trade_id`, `timestamp`, `is_buyer_maker`,
`is_best_match`, converting the timestamp column from milliseconds to
datetime; `process_trade_files` parses the same eight-column layout (naming
the first column `trade_id`) with the same millisecond conversion: the two
parses agree column by column on every input file. -/
theorem claim6_csv_columns (rows : List importhist.RawAggTrade) :
    (importhist.readAggTradesCsv rows).map
        (fun x => (x.agg_trade_id, x.price, x.quantity, x.first_trade_id,
          x.last_trade_id, x.timestamp, x.is_buyer_maker, x.is_best_match)) =
      (scriptfile.readTradeCsv rows).map
        (fun x => (x.trade_id, x.price, x.quantity, x.first_trade_id,
          x.last_trade_id, x.datetime, x.is_buyer_maker, x.is_best_match)) ∧
    (importhist.readAggTradesCsv rows).map importhist.AggTradeRow.timestamp =
      rows.map (fun r => importhist.msToDatetime r.col6) ∧
    (scriptfile.readTradeCsv rows).map scriptfile.ScriptRow.datetime =
      rows.map (fun r => importhist.msToDatetime r.col6) ∧
    (scriptfile.readTradeCsv rows).map scriptfile.ScriptRow.timestamp =
      rows.map importhist.RawAggTrade.col6 := by
  refine ⟨?_, ?_, ?_, ?_⟩ <;>
    simp [importhist.readAggTradesCsv, scriptfile.readTradeCsv]

/-! ## Claim C7 -/

/-- Claim C7 fails as stated at `period = 0`: the guard
`len(prices) < period` is never taken, `prices[-0:]` is the whole list, and
the division by `period` raises `ZeroDivisionError` instead of returning the
claimed quotient. -/
theorem claim7_counterexample :
    simfile.moving_average [1] 0 = Except.error "ZeroDivisionError" ∧
    simfile.moving_average [1] 0 ≠
      Except.ok (some ((([1] : List ℚ).reverse.take 0).sum / ((0 : ℕ) : ℚ))) := by
  exact ⟨rfl, fun h => Except.noConfusion h⟩

/-- Claim C7, amended to periods of at least 1 (the `ZeroDivisionError` at
`period = 0` excluded): `moving_average` returns `None` when
`len(prices) < period` and otherwise the sum of the last `period` prices
divided by `period`; the `simulator.py` and `page.py` versions compute the
same function on every input. -/
theorem claim7_amended (prices : List ℚ) (period : ℕ) (hp : 1 ≤ period) :
    simfile.moving_average prices period = pagefile.moving_average prices period ∧
    (prices.length < period → simfile.moving_average prices period = .ok none) ∧
    (period ≤ prices.length →
      simfile.moving_average prices period =
        .ok (some ((prices.reverse.take period).sum / (period : ℚ)))) := by
  refine ⟨rfl, fun h => by simp [simfile.moving_average, h], fun h => ?_⟩
  have h0 : period ≠ 0 := by omega
  have hlt : ¬ prices.length < period := by omega
  simp only [simfile.moving_average, if_neg hlt, if_neg h0]
  have htake : (prices.reverse.take period).reverse = prices.drop (prices.length - period) := by
    rw [List.reverse_take]
    simp
  rw [← htake, List.sum_reverse]

/-- Witness for C7 at `prices = [1, 2, 3]`, `period = 2`. -/
theorem claim7_witness :
    1 ≤ 2 ∧
    (simfile.moving_average [1, 2, 3] 2 = pagefile.moving_average [1, 2, 3] 2 ∧
      (([1, 2, 3] : List ℚ).length < 2 →
        simfile.moving_average [1, 2, 3] 2 = .ok none) ∧
      (2 ≤ ([1, 2, 3] : List ℚ).length →
        simfile.moving_average [1, 2, 3] 2 =
          .ok (some ((([1, 2, 3] : List ℚ).reverse.take 2).sum / ((2 : ℕ) : ℚ))))) :=
  ⟨by norm_num, claim7_amended [1, 2, 3] 2 (by norm_num)⟩

/-! ## Claim C8 -/

/-- Claim C8: for every positive price `p` and amount `a`,
`simulator.py`'s `TradingBot.buy p a` leaves
`current_balance + current_position * p` unchanged (the balance drops by
exactly `a`, the position grows by exactly `a / p`), and `TradingBot.sell p`
likewise conserves it (the position becomes `0` and the balance grows by the
old position times `p`). -/
theorem claim8_conservation (bot : simfile.TradingBot) (p a : ℚ) (now : ℕ)
    (hp : 0 < p) :
    ((bot.buy p a now).current_balance + (bot.buy p a now).current_position * p =
        bot.current_balance + bot.current_position * p) ∧
    (bot.buy p a now).current_balance = bot.current_balance - a ∧
    (bot.buy p a now).current_position = bot.current_position + a / p ∧
    ((bot.sell p now).current_balance + (bot.sell p now).current_position * p =
        bot.current_balance + bot.current_position * p) ∧
    (bot.sell p now).current_position = 0 ∧
    (bot.sell p now).current_balance = bot.current_balance + bot.current_position * p := by
  have hp0 : p ≠ 0 := ne_of_gt hp
  refine ⟨?_, by simp [simfile.TradingBot.buy], by simp [simfile.TradingBot.buy],
    ?_, by simp [simfile.TradingBot.sell], by simp [simfile.TradingBot.sell]⟩
  · simp only [simfile.TradingBot.buy]
    field_simp
    try ring
  · simp only [simfile.TradingBot.sell]
    try ring

/-- A concrete `simulator.py` bot used by the witnesses. -/
def sampleSimBot : simfile.TradingBot := ⟨1000, 1000, 5, none, []⟩

/-- Witness for C8 at a concrete bot, `p = 2`, `a = 10`. -/
theorem claim8_witness :
    (0 : ℚ) < 2 ∧
    (((sampleSimBot.buy 2 10 7).current_balance +
          (sampleSimBot.buy 2 10 7).current_position * 2 =
        sampleSimBot.current_balance + sampleSimBot.current_position * 2) ∧
      (sampleSimBot.buy 2 10 7).current_balance = sampleSimBot.current_balance - 10 ∧
      (sampleSimBot.buy 2 10 7).current_position =
        sampleSimBot.current_position + 10 / 2 ∧
      ((sampleSimBot.sell 2 7).current_balance +
          (sampleSimBot.sell 2 7).current_position * 2 =
        sampleSimBot.current_balance + sampleSimBot.current_position * 2) ∧
      (sampleSimBot.sell 2 7).current_position = 0 ∧
      (sampleSimBot.sell 2 7).current_balance =
        sampleSimBot.current_balance + sampleSimBot.current_position * 2) :=
  ⟨by norm_num, claim8_conservation sampleSimBot 2 10 7 (by norm_num)⟩

/-! ## Claim C9 -/

/-- Claim C9: in `page.py` every transaction appended by `TradingBot.sell`
records quantity `0`, because `current_position` is reset before the record
is built; the `simulator.py` version instead records the pre-sale
quantity. -/
theorem claim9_sell_records_zero (bot : pagefile.TradingBot)
    (sbot : simfile.TradingBot) (p : ℚ) (now : ℕ)
    (_hpos : 0 < bot.current_position) :
    (bot.sell p now).transactions.getLast? = some ⟨"sell", 0, p, now⟩ ∧
    (sbot.sell p now).transactions.getLast? =
      some ⟨"sell", sbot.current_position, p, sbot.entry_price, now⟩ := by
  constructor <;> simp [pagefile.TradingBot.sell, simfile.TradingBot.sell]

/-- A concrete `page.py` bot with a positive position. -/
def samplePageBot : pagefile.TradingBot := ⟨1000, 500, 3, some 9, []⟩

/-- Witness for C9 at concrete bots and `p = 11`. -/
theorem claim9_witness :
    (0 : ℚ) < samplePageBot.current_position ∧
    ((samplePageBot.sell 11 7).transactions.getLast? = some ⟨"sell", 0, 11, 7⟩ ∧
      (sampleSimBot.sell 11 7).transactions.getLast? =
        some ⟨"sell", sampleSimBot.current_position, 11, sampleSimBot.entry_price, 7⟩) :=
  ⟨by norm_num [samplePageBot], claim9_sell_records_zero samplePageBot sampleSimBot 11 7
    (by norm_num [samplePageBot])⟩

/-! ## Claim C3 -/

/-- Claim C3 fails as stated: each fetcher catches only
`requests.exceptions.RequestException`, so an exception raised after a
successful HTTP request — a corrupt zip in `download_binance_data`, a
missing `'price'` key in `get_current_price`, a non-tabular payload in
`fetch_binance_data` — propagates to the caller instead of yielding `None`. -/
theorem claim3_counterexample :
    importhist.download_binance_data (.ok .corrupt) = .error "BadZipFile" ∧
    simfile.get_current_price (.ok []) = .error "KeyError" ∧
    testpy.fetch_binance_data (.ok .notTabular) = .error "ValueError" :=
  ⟨rfl, rfl, rfl⟩

/-- Claim C3, amended: each fetcher returns `None` exactly when the HTTP
request itself fails (any `RequestException`, bad status codes included); on
a well-formed successful response it returns the parsed value; but an
exception raised while parsing a successful response (corrupt zip or missing
archive entry, missing or non-convertible `'price'` field, non-tabular
klines payload) propagates to the caller. -/
theorem claim3_amended (r1 : HttpResult (List (String × JValue)))
    (r2 : HttpResult importhist.ZipBody) (r3 : HttpResult testpy.KlinesBody) :
    (simfile.get_current_price r1 = .ok none ↔ r1 = .reqError) ∧
    (importhist.download_binance_data r2 = .ok none ↔ r2 = .reqError) ∧
    (testpy.fetch_binance_data r3 = .ok none ↔ r3 = .reqError) ∧
    (∀ data q, r1 = .ok data → data.lookup "price" = some (.num q) →
      simfile.get_current_price r1 = .ok (some q)) ∧
    (∀ rows, r2 = .ok (.entry rows) →
      importhist.download_binance_data r2 =
        .ok (some (importhist.readAggTradesCsv rows))) ∧
    (∀ rows, r3 = .ok (.klines rows) →
      testpy.fetch_binance_data r3 = .ok (some (rows.map fun r =>
        ⟨importhist.msToDatetime r.openTime, r.openP, r.highP, r.lowP, r.closeP,
          r.volume⟩))) ∧
    (r2 = .ok .corrupt → importhist.download_binance_data r2 = .error "BadZipFile") ∧
    (∀ data, r1 = .ok data → data.lookup "price" = none →
      simfile.get_current_price r1 = .error "KeyError") ∧
    (r3 = .ok .notTabular → testpy.fetch_binance_data r3 = .error "ValueError") := by
  refine ⟨?_, ?_, ?_, ?_, ?_, ?_, ?_, ?_, ?_⟩
  · cases r1 with
    | reqError => simp [simfile.get_current_price]
    | ok data =>
      cases h : data.lookup "price" with
      | none => simp [simfile.get_current_price, h]
      | some v => cases v <;> simp [simfile.get_current_price, h]
  · cases r2 with
    | reqError => simp [importhist.download_binance_data]
    | ok body => cases body <;> simp [importhist.download_binance_data]
  · cases r3 with
    | reqError => simp [testpy.fetch_binance_data]
    | ok body => cases body <;> simp [testpy.fetch_binance_data]
  · intro data q h1 h2
    subst h1
    simp [simfile.get_current_price, h2]
  · intro rows h2
    subst h2
    rfl
  · intro rows h3
    subst h3
    rfl
  · intro h2
    subst h2
    rfl
  · intro data h1 h2
    subst h1
    simp [simfile.get_current_price, h2]
  · intro h3
    subst h3
    rfl

/-- Witness for C3: the amended theorem applied at a request failure, and
one of its implications discharged at a concrete successful response. -/
theorem claim3_witness :
    (simfile.get_current_price .reqError = .ok none ↔
      (.reqError : HttpResult (List (String × JValue))) = .reqError) ∧
    simfile.get_current_price (.ok [("price", .num 42)]) = .ok (some 42) :=
  ⟨(claim3_amended .reqError .reqError .reqError).1,
    (claim3_amended (.ok [("price", .num 42)]) .reqError .reqError).2.2.2.1
      [("price", .num 42)] 42 rfl rfl⟩

/-! ## Claim C1 -/

/-- Every iteration of the `backtest_strategy` loop appends exactly one entry
to the equity curve. -/
theorem btStep_equity (st : results.BTState) (row : results.SignalRow) :
    ∃ x, (results.btStep st row).equity_curve = st.equity_curve ++ [x] := by
  unfold results.btStep
  cases row.signal with
  | none => exact ⟨_, rfl⟩
  | some s =>
    dsimp only
    split_ifs <;> exact ⟨_, rfl⟩

/-- Folding the `backtest_strategy` loop over `rows` appends exactly
`rows.length` entries to the equity curve. -/
theorem btFold_equity (rows : List results.SignalRow) :
    ∀ st : results.BTState, ∃ t : List ℚ,
      (rows.foldl results.btStep st).equity_curve = st.equity_curve ++ t ∧
        t.length = rows.length := by
  induction rows with
  | nil => exact fun st => ⟨[], by simp⟩
  | cons r rs ih =>
    intro st
    obtain ⟨x, hx⟩ := btStep_equity st r
    obtain ⟨t, ht, hlen⟩ := ih (results.btStep st r)
    refine ⟨x :: t, ?_, by simp [hlen]⟩
    rw [List.foldl_cons, ht, hx, List.append_assoc, List.singleton_append]

/-- Claim C1: for every input whose first row's signal is `NaN`, whenever
`backtest_strategy` returns at all, the returned equity curve has length
`len(df) + 1`, its first two entries both equal the initial capital `100000`
(the seed plus its duplicate appended by the `NaN` branch), and the
max-drawdown peak is initialized from that duplicated seed entry: the
returned `Max Drawdown` is the drawdown loop started with `peak = 100000`
over the whole curve.  (On inputs producing exactly one trade the win-rate
division raises `ZeroDivisionError` and nothing is returned.) -/
theorem claim1_seed (r : results.SignalRow) (rows : List results.SignalRow)
    (hnan : r.signal = none) (res : results.BTResult)
    (hok : results.backtest_strategy (r :: rows) = .ok res) :
    res.equity_curve.length = (r :: rows).length + 1 ∧
    res.equity_curve.getD 0 0 = 100000 ∧
    res.equity_curve.getD 1 0 = 100000 ∧
    res.max_drawdown = results.ddLoop 100000 0 res.equity_curve := by
  have hstep : results.btStep ⟨0, 100000, 0, [], [100000]⟩ r =
      ⟨0, 100000, 0, [], [100000, 100000]⟩ := by
    unfold results.btStep
    rw [hnan]
    rfl
  obtain ⟨t, ht, hlen⟩ := btFold_equity rows (results.btStep ⟨0, 100000, 0, [], [100000]⟩ r)
  rw [hstep] at ht
  have hec : (List.foldl results.btStep ⟨0, 100000, 0, [], [100000]⟩
      (r :: rows)).equity_curve = [100000, 100000] ++ t := by
    rw [List.foldl_cons, hstep, ht]
  simp only [results.backtest_strategy] at hok
  split at hok
  · exact Except.noConfusion hok
  · obtain rfl := Except.ok.inj hok
    refine ⟨?_, ?_, ?_, ?_⟩
    · show (List.foldl results.btStep ⟨0, 100000, 0, [], [100000]⟩
          (r :: rows)).equity_curve.length = (r :: rows).length + 1
      rw [hec]
      simp [hlen]
    · show (List.foldl results.btStep ⟨0, 100000, 0, [], [100000]⟩
          (r :: rows)).equity_curve.getD 0 0 = 100000
      rw [hec]
      rfl
    · show (List.foldl results.btStep ⟨0, 100000, 0, [], [100000]⟩
          (r :: rows)).equity_curve.getD 1 0 = 100000
      rw [hec]
      rfl
    · show results.ddLoop ((List.foldl results.btStep ⟨0, 100000, 0, [], [100000]⟩
            (r :: rows)).equity_curve.headD 0) 0
          ((List.foldl results.btStep ⟨0, 100000, 0, [], [100000]⟩
            (r :: rows)).equity_curve) =
        results.ddLoop 100000 0
          ((List.foldl results.btStep ⟨0, 100000, 0, [], [100000]⟩
            (r :: rows)).equity_curve)
      have hhead : (List.foldl results.btStep ⟨0, 100000, 0, [], [100000]⟩
          (r :: rows)).equity_curve.headD 0 = 100000 := by
        rw [hec]
        rfl
      rw [hhead]

/-- The result `backtest_strategy` returns on the single-`NaN`-row input:
no trades, a twice-seeded flat equity curve, zero drawdown. -/
def btResNan : results.BTResult := ⟨0, 0, 0, 0, [100000, 100000], []⟩

/-- The drawdown loop over the twice-seeded flat curve is `0`. -/
theorem ddLoop_flat : results.ddLoop 100000 0 [100000, 100000] = 0 := by
  simp only [results.ddLoop, ite_self]
  norm_num

/-- `backtest_strategy` on the single-`NaN`-row input returns `btResNan`
(no trade fires, so the win-rate division is not reached). -/
theorem backtest_nan_eval :
    results.backtest_strategy [⟨none, 5⟩] = .ok btResNan := by
  have hstep : results.btStep ⟨0, 100000, 0, [], [100000]⟩ ⟨none, 5⟩ =
      ⟨0, 100000, 0, [], [100000, 100000]⟩ := by
    unfold results.btStep
    rfl
  have hwr : results.winRateCalc ([] : List results.BTTrade) = .ok 0 := rfl
  simp only [results.backtest_strategy, List.foldl_cons, List.foldl_nil, hstep, hwr]
  norm_num [btResNan, Except.ok.injEq, results.BTResult.mk.injEq, results.ddLoop, ite_self]

/-- Witness for C1 at the single-`NaN`-row input, on which the function
does return. -/
theorem claim1_witness :
    (⟨none, 5⟩ : results.SignalRow).signal = none ∧
    results.backtest_strategy [⟨none, 5⟩] = .ok btResNan ∧
    (btResNan.equity_curve.length = ([⟨none, 5⟩] : List results.SignalRow).length + 1 ∧
      btResNan.equity_curve.getD 0 0 = 100000 ∧
      btResNan.equity_curve.getD 1 0 = 100000 ∧
      btResNan.max_drawdown = results.ddLoop 100000 0 btResNan.equity_curve) :=
  ⟨rfl, backtest_nan_eval, claim1_seed ⟨none, 5⟩ [] rfl btResNan backtest_nan_eval⟩

/-! ## Claim C10 -/

/-- A negative access into a constant price history succeeds exactly on the
in-range offsets. -/
theorem pyNegGet_replicate (c : ℚ) (L k : ℕ) (h1 : 1 ≤ k) (h2 : k ≤ L) :
    pyNegGet (List.replicate L c) k = .ok c := by
  unfold pyNegGet
  rw [if_pos ⟨h1, by simpa using h2⟩]
  have hlt : L - k < L := by omega
  simp [List.getD_eq_getElem?_getD, List.getElem?_replicate, hlt]

/-- On a constant history of length `L`, a loop whose indices run past the
front of the list (`i + n = L + 1` with at least one iteration left) raises
`IndexError`. -/
theorem rsiLoop_const_error (c : ℚ) (L : ℕ) (hL : 1 ≤ L) :
    ∀ n i (g l : ℚ), 1 ≤ i → i + n = L + 1 → 1 ≤ n →
      simfile.rsiLoop (List.replicate L c) n i g l = .error "IndexError" := by
  intro n
  induction n with
  | zero => exact fun i g l _ _ hn => absurd hn (by norm_num)
  | succ n ih =>
    intro i g l hi heq _
    by_cases hn : n = 0
    · subst hn
      have hi' : i = L := by omega
      rw [hi']
      have h2 : pyNegGet (List.replicate L c) (L + 1) = .error "IndexError" := by
        unfold pyNegGet
        rw [if_neg]
        simp
      rw [simfile.rsiLoop, pyNegGet_replicate c L L hL le_rfl, h2]
    · have h1 := pyNegGet_replicate c L i hi (by omega)
      have h2 := pyNegGet_replicate c L (i + 1) (by omega) (by omega)
      rw [simfile.rsiLoop, h1, h2]
      dsimp only
      rw [if_neg (by simp), if_neg (by simp)]
      exact ih (i + 1) g l (by omega) (by omega) (by omega)

/-- Claim C10 fails as stated: with exactly `period` prices the guard
`len(prices) < period` lets the loop run, and its last iteration
(`i = period`) reads `prices[-period - 1]`, one past the front of the list —
an `IndexError`, shown here at the default `period = 14` on a 14-price
history. -/
theorem claim10_counterexample :
    pagefile.relative_strength_index (List.replicate 14 1) 14 =
      Except.error "IndexError" := by
  unfold pagefile.relative_strength_index
  rw [if_neg (by simp)]
  rw [rsiLoop_const_error 1 14 (by norm_num) 14 1 0 0 le_rfl (by norm_num) (by norm_num)]

/-- The RSI loop completes without an index error whenever every access
`prices[-i]`, …, `prices[-(i + n)]` it performs is within range. -/
theorem rsiLoop_ok (prices : List ℚ) :
    ∀ (n i : ℕ) (g l : ℚ), 1 ≤ i → i + n ≤ prices.length →
      ∃ gl : ℚ × ℚ, simfile.rsiLoop prices n i g l = .ok gl := by
  intro n
  induction n with
  | zero => exact fun i g l _ _ => ⟨(g, l), rfl⟩
  | succ n ih =>
    intro i g l hi hle
    have h1 : pyNegGet prices i = .ok (prices.getD (prices.length - i) 0) := by
      unfold pyNegGet
      rw [if_pos ⟨hi, by omega⟩]
    have h2 : pyNegGet prices (i + 1) = .ok (prices.getD (prices.length - (i + 1)) 0) := by
      unfold pyNegGet
      rw [if_pos ⟨by omega, by omega⟩]
    rw [simfile.rsiLoop, h1, h2]
    dsimp only
    split_ifs with hc1 hc2
    · exact ih (i + 1) _ _ (by omega) (by omega)
    · exact ih (i + 1) _ _ (by omega) (by omega)
    · exact ih (i + 1) _ _ (by omega) (by omega)

/-- Claim C10, amended as the `simulator.py` iteration of the same function
does: with at least `period + 1` prices (and `period ≥ 1`) every access of
`page.py`'s `relative_strength_index` loop is within range and the function
returns a value. -/
theorem claim10_amended (prices : List ℚ) (period : ℕ) (_hp : 1 ≤ period)
    (hlen : period + 1 ≤ prices.length) :
    ∃ v : ℚ, pagefile.relative_strength_index prices period = .ok (some v) := by
  have hguard : ¬ prices.length < period := by omega
  obtain ⟨⟨g, l⟩, hok⟩ := rsiLoop_ok prices period 1 0 0 le_rfl (by omega)
  unfold pagefile.relative_strength_index
  rw [if_neg hguard, hok]
  dsimp only
  split_ifs
  · exact ⟨100, rfl⟩
  · exact ⟨_, rfl⟩

/-- Witness for C10 at 15 constant prices and the default `period = 14`. -/
theorem claim10_witness :
    1 ≤ 14 ∧ 14 + 1 ≤ (List.replicate 15 (1 : ℚ)).length ∧
    ∃ v : ℚ, pagefile.relative_strength_index (List.replicate 15 1) 14 =
      .ok (some v) :=
  ⟨by norm_num, by simp,
    claim10_amended (List.replicate 15 1) 14 (by norm_num) (by simp)⟩

/-! ## Claim C4 -/

instance rowLeTotal :
    IsTotal fetcher.Row fun a b => a.timestamp ≤ b.timestamp :=
  ⟨fun a b => Nat.le_total a.timestamp b.timestamp⟩

instance rowLeTrans :
    IsTrans fetcher.Row fun a b => a.timestamp ≤ b.timestamp :=
  ⟨fun _ _ _ => Nat.le_trans⟩

/-- Recursion equation of the keep-last duplicate filter. -/
theorem dropDupKeepLast_cons (r : fetcher.Row) (l : List fetcher.Row) :
    fetcher.dropDupKeepLast (r :: l) =
      if (fetcher.dropDupKeepLast l).any (fun x => x.timestamp = r.timestamp) then
        fetcher.dropDupKeepLast l
      else r :: fetcher.dropDupKeepLast l := rfl

/-- The keep-last duplicate filter only keeps rows of its input. -/
theorem dropDupKeepLast_subset {l : List fetcher.Row} :
    fetcher.dropDupKeepLast l ⊆ l := by
  induction l with
  | nil => simp [fetcher.dropDupKeepLast]
  | cons r t ih =>
    rw [dropDupKeepLast_cons]
    split_ifs
    · exact fun x hx => List.mem_cons_of_mem _ (ih hx)
    · intro x hx
      rcases List.mem_cons.mp hx with h | h
      · exact h ▸ List.mem_cons_self _ _
      · exact List.mem_cons_of_mem _ (ih h)

/-- After the keep-last duplicate filter, timestamps are pairwise distinct. -/
theorem dropDupKeepLast_nodup (l : List fetcher.Row) :
    ((fetcher.dropDupKeepLast l).map fetcher.Row.timestamp).Nodup := by
  induction l with
  | nil => simp [fetcher.dropDupKeepLast]
  | cons r t ih =>
    rw [dropDupKeepLast_cons]
    split_ifs with h
    · exact ih
    · simp only [List.map_cons, List.nodup_cons]
      refine ⟨fun hmem => ?_, ih⟩
      rw [List.mem_map] at hmem
      obtain ⟨x, hx, hts⟩ := hmem
      exact h (List.any_eq_true.mpr ⟨x, hx, by simp [hts]⟩)

/-- The keep-last filter of an appended list folds over the left part with
the filtered right part as the accumulator. -/
theorem dropDupKeepLast_append (l1 l2 : List fetcher.Row) :
    fetcher.dropDupKeepLast (l1 ++ l2) =
      l1.foldr
        (fun r acc =>
          if acc.any (fun x => x.timestamp = r.timestamp) then acc else r :: acc)
        (fetcher.dropDupKeepLast l2) := by
  simp [fetcher.dropDupKeepLast, List.foldr_append]

/-- Rows already in the accumulator survive the keep-last fold. -/
theorem mem_foldr_keep (l acc : List fetcher.Row) (r : fetcher.Row) (hr : r ∈ acc) :
    r ∈ l.foldr
        (fun r acc =>
          if acc.any (fun x => x.timestamp = r.timestamp) then acc else r :: acc)
        acc := by
  induction l with
  | nil => exact hr
  | cons a t ih =>
    simp only [List.foldr_cons]
    split_ifs
    · exact ih
    · exact List.mem_cons_of_mem _ ih

/-- A list whose timestamps are pairwise distinct survives the keep-last
filter in full. -/
theorem mem_dropDupKeepLast_self (l : List fetcher.Row)
    (hnd : (l.map fetcher.Row.timestamp).Nodup) :
    ∀ r ∈ l, r ∈ fetcher.dropDupKeepLast l := by
  induction l with
  | nil => simp
  | cons a t ih =>
    simp only [List.map_cons, List.nodup_cons] at hnd
    intro r hr
    rw [dropDupKeepLast_cons]
    have hany :
        ¬ ((fetcher.dropDupKeepLast t).any fun x => x.timestamp = a.timestamp) = true := by
      intro h
      rw [List.any_eq_true] at h
      obtain ⟨x, hx, hts⟩ := h
      exact hnd.1 (List.mem_map.mpr ⟨x, dropDupKeepLast_subset hx, by simpa using hts⟩)
    rw [if_neg hany]
    rcases List.mem_cons.mp hr with h | h
    · exact h ▸ List.mem_cons_self _ _
    · exact List.mem_cons_of_mem _ (ih hnd.2 r h)

/-- The aggregated rows carry exactly the group keys as timestamps. -/
theorem agg_map_timestamp (trades : List fetcher.Trade) :
    (((fetcher.aggKeys trades).map (fetcher.aggRow trades)).map
        fetcher.Row.timestamp) = fetcher.aggKeys trades := by
  rw [List.map_map]
  exact List.map_id'' (fun _ => rfl) _

/-- The group keys are distinct. -/
theorem aggKeys_nodup (trades : List fetcher.Trade) :
    (fetcher.aggKeys trades).Nodup :=
  ((List.perm_insertionSort _ _).nodup_iff).mpr (List.nodup_dedup _)

/-- The group keys are sorted ascending. -/
theorem aggKeys_sorted (trades : List fetcher.Trade) :
    List.Sorted (· ≤ ·) (fetcher.aggKeys trades) :=
  List.sorted_insertionSort _ _

/-- Every buffered trade's second appears among the group keys. -/
theorem mem_aggKeys (trades : List fetcher.Trade) (tr : fetcher.Trade)
    (htr : tr ∈ trades) :
    fetcher.floorSec tr.timestamp ∈ fetcher.aggKeys trades := by
  rw [fetcher.aggKeys, List.mem_insertionSort, List.mem_dedup]
  exact List.mem_map.mpr ⟨tr, htr, rfl⟩

/-- With a non-empty buffer, `save_to_parquet` clears the buffer and writes
the merged file. -/
theorem save_to_parquet_eq (s : fetcher.FetcherState)
    (hne : s.current_second_data ≠ []) :
    fetcher.save_to_parquet s =
      { current_second_data := [],
        file := some (match s.file with
          | some existing =>
            fetcher.sortRows (fetcher.dropDupKeepLast (existing ++
              (fetcher.aggKeys s.current_second_data).map
                (fetcher.aggRow s.current_second_data)))
          | none =>
            (fetcher.aggKeys s.current_second_data).map
              (fetcher.aggRow s.current_second_data)) } := by
  have he : ¬ s.current_second_data.isEmpty = true := by
    simp [List.isEmpty_iff, hne]
  have hkeys : fetcher.aggKeys s.current_second_data ≠ [] := by
    intro h
    have hp := List.perm_insertionSort (α := ℕ) (· ≤ ·)
      ((s.current_second_data.map fun t => fetcher.floorSec t.timestamp).dedup)
    rw [fetcher.aggKeys] at h
    rw [h] at hp
    have hd := hp.symm.eq_nil
    rw [List.dedup_eq_nil] at hd
    exact hne (by simpa using hd)
  have hagg : fetcher.aggregate_second_data s.current_second_data =
      some ((fetcher.aggKeys s.current_second_data).map
        (fetcher.aggRow s.current_second_data)) := by
    unfold fetcher.aggregate_second_data
    rw [if_neg he]
  have hanot : ¬ ((fetcher.aggKeys s.current_second_data).map
      (fetcher.aggRow s.current_second_data)).isEmpty = true := by
    simp [List.isEmpty_iff, hkeys]
  unfold fetcher.save_to_parquet
  rw [if_neg he, hagg]
  dsimp only
  rw [if_neg hanot]
  cases s.file <;> rfl

/-- Claim C4: every call to `save_to_parquet` leaves `current_second_data`
empty; when the buffer was non-empty the day's file afterwards holds the
1-second aggregation of the buffered trades merged with any existing file —
timestamps pairwise distinct and sorted ascending, every aggregated row kept
(duplicates resolved in favour of the fresh aggregation), every file row
coming from the aggregation or the pre-existing file — and no buffered trade
is lost: its second appears in the written file. -/
theorem claim4_flush (s : fetcher.FetcherState) :
    (fetcher.save_to_parquet s).current_second_data = [] ∧
    (s.current_second_data ≠ [] → ∃ t,
      (fetcher.save_to_parquet s).file = some t ∧
      (t.map fetcher.Row.timestamp).Nodup ∧
      List.Sorted (· ≤ ·) (t.map fetcher.Row.timestamp) ∧
      (∀ r ∈ (fetcher.aggKeys s.current_second_data).map
          (fetcher.aggRow s.current_second_data), r ∈ t) ∧
      (∀ r ∈ t, r ∈ (fetcher.aggKeys s.current_second_data).map
          (fetcher.aggRow s.current_second_data) ∨ r ∈ s.file.getD []) ∧
      (∀ tr ∈ s.current_second_data,
        fetcher.floorSec tr.timestamp ∈ t.map fetcher.Row.timestamp)) := by
  constructor
  · by_cases hne : s.current_second_data = []
    · have he : s.current_second_data.isEmpty = true := by simp [hne]
      unfold fetcher.save_to_parquet
      rw [if_pos he]
    · rw [save_to_parquet_eq s hne]
  · intro hne
    have hndagg : (((fetcher.aggKeys s.current_second_data).map
        (fetcher.aggRow s.current_second_data)).map fetcher.Row.timestamp).Nodup := by
      rw [agg_map_timestamp]
      exact aggKeys_nodup _
    rw [save_to_parquet_eq s hne]
    cases hf : s.file with
    | none =>
      refine ⟨(fetcher.aggKeys s.current_second_data).map
        (fetcher.aggRow s.current_second_data), rfl, hndagg, ?_, fun r hr => hr,
        fun r hr => Or.inl hr, ?_⟩
      · rw [agg_map_timestamp]
        exact aggKeys_sorted _
      · intro tr htr
        rw [agg_map_timestamp]
        exact mem_aggKeys _ tr htr
    | some existing =>
      set aggm := (fetcher.aggKeys s.current_second_data).map
        (fetcher.aggRow s.current_second_data) with haggm
      set t := fetcher.sortRows (fetcher.dropDupKeepLast (existing ++ aggm)) with hts
      have hperm : List.Perm t (fetcher.dropDupKeepLast (existing ++ aggm)) :=
        List.perm_insertionSort _ _
      have hmem_t : ∀ r, r ∈ t ↔ r ∈ fetcher.dropDupKeepLast (existing ++ aggm) :=
        fun r => List.mem_insertionSort _
      have haggsub : ∀ r ∈ aggm, r ∈ t := by
        intro r hr
        rw [hmem_t, dropDupKeepLast_append]
        exact mem_foldr_keep _ _ _ (mem_dropDupKeepLast_self aggm hndagg r hr)
      refine ⟨t, rfl, ?_, ?_, haggsub, ?_, ?_⟩
      · exact ((hperm.map fetcher.Row.timestamp).nodup_iff).mpr
          (dropDupKeepLast_nodup _)
      · exact List.pairwise_map.mpr (List.sorted_insertionSort _ _)
      · intro r hr
        have := dropDupKeepLast_subset ((hmem_t r).mp hr)
        rcases List.mem_append.mp this with h | h
        · exact Or.inr (by simpa using h)
        · exact Or.inl h
      · intro tr htr
        refine List.mem_map.mpr ⟨fetcher.aggRow s.current_second_data
          (fetcher.floorSec tr.timestamp), ?_, rfl⟩
        exact haggsub _ (List.mem_map.mpr ⟨fetcher.floorSec tr.timestamp,
          mem_aggKeys _ tr htr, rfl⟩)

/-- A concrete fetcher state with two buffered trades in distinct seconds
and no existing file. -/
def sampleFetcherState : fetcher.FetcherState :=
  ⟨[⟨1500, 10, 2⟩, ⟨2500, 20, 6⟩], none⟩

/-- Witness for C4 at the concrete state. -/
theorem claim4_witness :
    sampleFetcherState.current_second_data ≠ [] ∧
    ((fetcher.save_to_parquet sampleFetcherState).current_second_data = [] ∧ ∃ t,
      (fetcher.save_to_parquet sampleFetcherState).file = some t ∧
      (t.map fetcher.Row.timestamp).Nodup ∧
      List.Sorted (· ≤ ·) (t.map fetcher.Row.timestamp) ∧
      (∀ r ∈ (fetcher.aggKeys sampleFetcherState.current_second_data).map
          (fetcher.aggRow sampleFetcherState.current_second_data), r ∈ t) ∧
      (∀ r ∈ t, r ∈ (fetcher.aggKeys sampleFetcherState.current_second_data).map
          (fetcher.aggRow sampleFetcherState.current_second_data) ∨
        r ∈ sampleFetcherState.file.getD []) ∧
      (∀ tr ∈ sampleFetcherState.current_second_data,
        fetcher.floorSec tr.timestamp ∈ t.map fetcher.Row.timestamp)) :=
  ⟨by simp [sampleFetcherState],
    (claim4_flush sampleFetcherState).1,
    (claim4_flush sampleFetcherState).2 (by simp [sampleFetcherState])⟩

/-! ## Claim C5 -/

/-- The lock-ownership invariant of the interleaving model: whenever a thread
is inside a `with buffer_lock` block (any pc strictly between its acquire and
the end of its block), that thread owns the lock. -/
def LockInv (s : lockmodel.St) : Prop :=
  (s.pcA = 1 ∨ s.pcA = 2 ∨ s.pcA = 4 ∨ s.pcA = 5 ∨ s.pcA = 6 →
    s.lock = some .producer) ∧
  (s.pcB = 1 ∨ s.pcB = 2 ∨ s.pcB = 3 → s.lock = some .saver)

/-- The invariant holds initially. -/
theorem lockInv_init : LockInv lockmodel.init := by
  refine ⟨fun h => ?_, fun h => ?_⟩ <;> simp [lockmodel.init] at h

/-- The invariant is preserved by every step of either thread. -/
theorem lockInv_step {s s' : lockmodel.St} (hinv : LockInv s)
    (hstep : lockmodel.Step s s') : LockInv s' := by
  cases hstep with
  | acquireA h hpc =>
    refine ⟨fun _ => rfl, fun hb => ?_⟩
    have hc := hinv.2 hb
    rw [h] at hc
    exact Option.noConfusion hc
  | appendA d hpc =>
    exact ⟨fun _ => hinv.1 (Or.inl hpc), fun hb => hinv.2 hb⟩
  | releaseA hpc =>
    refine ⟨fun h0 => ?_, fun hb => ?_⟩
    · rcases h0 with h | h | h | h | h <;> simp at h
    · have hc := hinv.2 hb
      have hd := hinv.1 (Or.inr (Or.inl hpc))
      rw [hd] at hc
      exact Option.noConfusion hc fun h => lockmodel.Tid.noConfusion h
  | releaseAtoSave hpc =>
    refine ⟨fun h0 => ?_, fun hb => ?_⟩
    · rcases h0 with h | h | h | h | h <;> simp at h
    · have hc := hinv.2 hb
      have hd := hinv.1 (Or.inr (Or.inl hpc))
      rw [hd] at hc
      exact Option.noConfusion hc fun h => lockmodel.Tid.noConfusion h
  | acquireASave h hpc =>
    refine ⟨fun _ => rfl, fun hb => ?_⟩
    have hc := hinv.2 hb
    rw [h] at hc
    exact Option.noConfusion hc
  | copyA hpc =>
    exact ⟨fun _ => hinv.1 (by tauto), fun hb => hinv.2 hb⟩
  | clearA hpc =>
    exact ⟨fun _ => hinv.1 (by tauto), fun hb => hinv.2 hb⟩
  | releaseASave hpc =>
    refine ⟨fun h0 => ?_, fun hb => ?_⟩
    · rcases h0 with h | h | h | h | h <;> simp at h
    · have hc := hinv.2 hb
      have hd := hinv.1 (by tauto)
      rw [hd] at hc
      exact Option.noConfusion hc fun h => lockmodel.Tid.noConfusion h
  | acquireB h hpc =>
    refine ⟨fun ha => ?_, fun _ => rfl⟩
    have hc := hinv.1 ha
    rw [h] at hc
    exact Option.noConfusion hc
  | copyB hpc =>
    exact ⟨fun ha => hinv.1 ha, fun _ => hinv.2 (by tauto)⟩
  | clearB hpc =>
    exact ⟨fun ha => hinv.1 ha, fun _ => hinv.2 (by tauto)⟩
  | releaseB hpc =>
    refine ⟨fun ha => ?_, fun hb => ?_⟩
    · have hc := hinv.1 ha
      have hd := hinv.2 (by tauto)
      rw [hd] at hc
      exact Option.noConfusion hc fun h => lockmodel.Tid.noConfusion h
    · rcases hb with h | h | h <;> simp at h

/-- Every reachable state satisfies the invariant. -/
theorem lockInv_reachable {s : lockmodel.St} (h : lockmodel.Reachable s) :
    LockInv s := by
  induction h with
  | init => exact lockInv_init
  | step _ hs ih => exact lockInv_step ih hs

/-- Claim C5: in every interleaving of the websocket callback thread and the
periodic save thread, `current_second_data` is only touched while
`buffer_lock` is held by the touching thread: in any reachable state, a
thread about to execute the append of `on_message` (pc 1 of the producer) or
the copy or clear of `save_to_parquet` (pcs 4/5 of the producer's inline
call, pcs 1/2 of the saver) owns the lock. -/
theorem claim5_lock_discipline (s : lockmodel.St) (hr : lockmodel.Reachable s) :
    (s.pcA = 1 → s.lock = some .producer) ∧
    (s.pcA = 4 ∨ s.pcA = 5 → s.lock = some .producer) ∧
    (s.pcB = 1 ∨ s.pcB = 2 → s.lock = some .saver) := by
  have hinv := lockInv_reachable hr
  exact ⟨fun h => hinv.1 (by tauto), fun h => hinv.1 (by tauto),
    fun h => hinv.2 (by tauto)⟩

/-- Witness for C5: the state reached by the producer's lock acquisition. -/
theorem claim5_witness :
    lockmodel.Reachable
      (⟨1, 0, some .producer, [], [], []⟩ : lockmodel.St) ∧
    (((⟨1, 0, some .producer, [], [], []⟩ : lockmodel.St).pcA = 1 →
        (⟨1, 0, some .producer, [], [], []⟩ : lockmodel.St).lock = some .producer) ∧
      ((⟨1, 0, some .producer, [], [], []⟩ : lockmodel.St).pcA = 4 ∨
          (⟨1, 0, some .producer, [], [], []⟩ : lockmodel.St).pcA = 5 →
        (⟨1, 0, some .producer, [], [], []⟩ : lockmodel.St).lock = some .producer) ∧
      ((⟨1, 0, some .producer, [], [], []⟩ : lockmodel.St).pcB = 1 ∨
          (⟨1, 0, some .producer, [], [], []⟩ : lockmodel.St).pcB = 2 →
        (⟨1, 0, some .producer, [], [], []⟩ : lockmodel.St).lock = some .saver)) :=
  have hreach : lockmodel.Reachable (⟨1, 0, some .producer, [], [], []⟩ : lockmodel.St) :=
    lockmodel.Reachable.step lockmodel.Reachable.init
      (lockmodel.Step.acquireA lockmodel.init rfl rfl)
  ⟨hreach, claim5_lock_discipline _ hreach⟩

/-! ## Claim C2 -/

/-- `np.diff` on a two-element head. -/
theorem np_diff_cons_cons (a b : ℚ) (t : List ℚ) :
    np.diff (a :: b :: t) = (b - a) :: np.diff (b :: t) := rfl

/-- `np.diff` shortens a list by one. -/
theorem np_diff_length (l : List ℚ) : (np.diff l).length = l.length - 1 := by
  induction l with
  | nil => rfl
  | cons a t ih =>
    cases t with
    | nil => rfl
    | cons b t2 =>
      rw [np_diff_cons_cons]
      simp only [List.length_cons] at *
      omega

/-- The differences of a constant list are zero. -/
theorem np_diff_replicate (n : ℕ) (a : ℚ) :
    np.diff (List.replicate (n + 1) a) = List.replicate n 0 := by
  induction n with
  | zero => rfl
  | succ m ih =>
    show np.diff (a :: a :: List.replicate m a) = List.replicate (m + 1) 0
    rw [np_diff_cons_cons, sub_self, List.replicate_succ]
    exact congrArg (List.cons 0) ih

/-- Splitting `np.diff` at an append point, given the last element of the
left part. -/
theorem np_diff_append_cons (l1 : List ℚ) (x c : ℚ) (l2 : List ℚ)
    (hx : l1.getLast? = some x) :
    np.diff (l1 ++ c :: l2) = np.diff l1 ++ (c - x) :: np.diff (c :: l2) := by
  induction l1 with
  | nil => simp at hx
  | cons a t ih =>
    cases t with
    | nil =>
      simp only [List.getLast?_singleton, Option.some.injEq] at hx
      subst hx
      rfl
    | cons b t2 =>
      have hx2 : (b :: t2).getLast? = some x := by
        rw [List.getLast?_cons_cons] at hx
        exact hx
      have := ih hx2
      simp only [List.cons_append, np_diff_cons_cons]
      rw [← List.cons_append, this]

/-- The strictly descending run `[c, c-1, …, c-n]`. -/
def stepDown (c : ℚ) : ℕ → List ℚ
  | 0 => [c]
  | n + 1 => c :: stepDown (c - 1) n

/-- Length of a descending run. -/
theorem stepDown_length (c : ℚ) (n : ℕ) : (stepDown c n).length = n + 1 := by
  induction n generalizing c with
  | zero => rfl
  | succ m ih => simp [stepDown, ih]

/-- Last element of a descending run. -/
theorem stepDown_getLast? (c : ℚ) (n : ℕ) :
    (stepDown c n).getLast? = some (c - n) := by
  induction n generalizing c with
  | zero => simp [stepDown]
  | succ m ih =>
    cases m with
    | zero =>
      show ([c, c - 1] : List ℚ).getLast? = some (c - (1 : ℕ))
      norm_num
    | succ k =>
      show (c :: stepDown (c - 1) (k + 1)).getLast? = _
      rw [show stepDown (c - 1) (k + 1) = (c - 1) :: stepDown (c - 1 - 1) k from rfl,
        List.getLast?_cons_cons,
        ← show stepDown (c - 1) (k + 1) = (c - 1) :: stepDown (c - 1 - 1) k from rfl,
        ih (c - 1)]
      congr 1
      push_cast
      ring

/-- The differences of a descending run are all `-1`. -/
theorem np_diff_stepDown (c : ℚ) (n : ℕ) :
    np.diff (stepDown c n) = List.replicate n (-1) := by
  induction n generalizing c with
  | zero => rfl
  | succ m ih =>
    cases m with
    | zero =>
      show np.diff [c, c - 1] = [-1]
      rw [np_diff_cons_cons, show np.diff [c - 1] = [] from rfl]
      norm_num
    | succ k =>
      show np.diff (c :: (c - 1) :: stepDown (c - 1 - 1) k) = _
      rw [np_diff_cons_cons,
        ← show stepDown (c - 1) (k + 1) = (c - 1) :: stepDown (c - 1 - 1) k from rfl,
        ih (c - 1), List.replicate_succ]
      congr 1
      ring

/-- A constant list is sorted. -/
theorem sorted_le_replicate (n : ℕ) (a : ℚ) :
    List.Sorted (· ≤ ·) (List.replicate n a) := by
  induction n with
  | zero => simp
  | succ m ih =>
    rw [List.replicate_succ]
    exact List.Pairwise.cons (fun b hb => (List.eq_of_mem_replicate hb) ▸ le_refl a) ih

/-- Sorting a sorted list is the identity. -/
theorem sortQ_sorted_eq {l : List ℚ} (h : List.Sorted (· ≤ ·) l) :
    np.sortQ l = l :=
  h.insertionSort_eq

/-- Inserting `1` into a run of zeros pushes it to the end. -/
theorem orderedInsert_one_replicate_zero (n : ℕ) :
    List.orderedInsert (· ≤ ·) (1 : ℚ) (List.replicate n 0) =
      List.replicate n 0 ++ [1] := by
  induction n with
  | zero => rfl
  | succ m ih =>
    rw [List.replicate_succ]
    show List.orderedInsert (· ≤ ·) (1 : ℚ) (0 :: List.replicate m 0) = _
    rw [List.orderedInsert, if_neg (by norm_num), ih]
    rfl

/-- Ascending sort of the `ec1` difference vector. -/
theorem sortQ_diff_ec1 :
    np.sortQ (1 :: List.replicate 1439 0) = List.replicate 1439 0 ++ [1] := by
  show List.insertionSort (· ≤ ·) (1 :: List.replicate 1439 0) = _
  rw [List.insertionSort, (sorted_le_replicate 1439 0).insertionSort_eq]
  exact orderedInsert_one_replicate_zero 1439

/-- `np.percentile(l, 5)` on a 1440-point dataset whose sorted order has
zeros at ranks 71 and 72 is `0`. -/
theorem percentile05_1440 (l s : List ℚ) (hs : np.sortQ l = s)
    (hn : s.length = 1440) (h71 : s.getD 71 0 = 0) (h72 : s.getD 72 0 = 0) :
    np.percentile05 l = 0 := by
  have hq : (5 : ℚ) * (((1440 : ℕ) : ℚ) - 1) / 100 = 1439 / 20 := by norm_num
  have hfl : ⌊(1439 / 20 : ℚ)⌋ = 71 := by
    rw [Int.floor_eq_iff]
    norm_num
  have ht : (71 : ℤ).toNat = 71 := rfl
  simp only [np.percentile05, hs, hn, hq, hfl, ht]
  rw [if_pos (by norm_num), h71, h72]
  ring

/-- `np.percentile` of a one-point dataset is that point. -/
theorem percentile05_singleton (x : ℚ) : np.percentile05 [x] = x := by
  have hs : np.sortQ [x] = [x] := sortQ_sorted_eq (by simp)
  simp only [np.percentile05, hs]
  norm_num

/-- Mean of a one-point dataset. -/
theorem np_mean_singleton (x : ℚ) : np.mean [x] = x := by
  simp [np.mean]

/-- Variance of a one-point dataset is zero. -/
theorem np_variance_singleton (x : ℚ) : np.variance [x] = 0 := by
  simp [np.variance, np.mean]

/-- The Sharpe expression on a one-point dataset takes the `std = 0` branch
and returns `0`. -/
theorem sharpeFormula_singleton (x : ℚ) : sharpeFormula [x] = 0 := by
  unfold sharpeFormula
  rw [if_neg]
  rw [np.std, np_variance_singleton]
  simp

/-- The expected-shortfall expression on a one-point dataset has nothing
strictly below its own percentile: `NaN`. -/
theorem esFormula_singleton (x : ℚ) : esFormula [x] = none := by
  unfold esFormula
  rw [percentile05_singleton]
  simp

/-- A 1440-element list reshapes into a single day. -/
theorem chunks1440_len_eq (l : List ℚ) (h : l.length = 1440) :
    chunks1440 l = [l] := by
  cases l with
  | nil => simp at h
  | cons a t =>
    have h1 : (a :: t).take 1440 = a :: t := List.take_of_length_le (by omega)
    have h2 : (a :: t).drop 1440 = [] := List.drop_eq_nil_of_le (by omega)
    rw [chunks1440, h1, h2, chunks1440]

/-- A 1441-minute equity curve: flat except for a single 1-unit rise after
the first minute. -/
def ec1 : List ℚ := 100000 :: List.replicate 1440 100001

/-- A 1441-minute equity curve: fifty 1-unit drops, then flat. -/
def ec2 : List ℚ := stepDown 100000 50 ++ List.replicate 1390 99950

theorem ec1_length : ec1.length = 1441 := by
  rw [ec1, List.length_cons, List.length_replicate]

theorem ec2_length : ec2.length = 1441 := by
  rw [ec2, List.length_append, stepDown_length, List.length_replicate]

/-- The raw differences of `ec1`. -/
theorem diff_ec1 : np.diff ec1 = 1 :: List.replicate 1439 0 := by
  show np.diff (100000 :: List.replicate 1440 100001) = _
  have h : List.replicate 1440 (100001 : ℚ) = 100001 :: List.replicate 1439 100001 := rfl
  rw [h, np_diff_cons_cons]
  congr 1
  · norm_num
  · exact np_diff_replicate 1439 100001

/-- The raw differences of `ec2`. -/
theorem diff_ec2 :
    np.diff ec2 = List.replicate 50 (-1) ++ List.replicate 1390 0 := by
  show np.diff (stepDown 100000 50 ++ List.replicate 1390 99950) = _
  have hrep : List.replicate 1390 (99950 : ℚ) = 99950 :: List.replicate 1389 99950 := rfl
  rw [hrep, np_diff_append_cons (stepDown 100000 50) (100000 - (50 : ℕ)) 99950 _
    (stepDown_getLast? 100000 50), np_diff_stepDown]
  congr 1
  have h0 : (99950 : ℚ) - (100000 - (50 : ℕ)) = 0 := by push_cast; ring
  rw [h0]
  exact congrArg (List.cons 0) (np_diff_replicate 1389 99950)

/-- Mean of the `ec1` differences. -/
theorem mean_diff_ec1 : np.mean (1 :: List.replicate 1439 0) = 1 / 1440 := by
  simp only [np.mean, List.sum_cons, List.sum_replicate, List.length_cons,
    List.length_replicate, nsmul_eq_mul]
  norm_num

/-- Variance of the `ec1` differences is positive. -/
theorem variance_diff_ec1_pos : 0 < np.variance (1 :: List.replicate 1439 0) := by
  unfold np.variance
  rw [mean_diff_ec1]
  simp only [List.map_cons, List.map_replicate, List.sum_cons, List.sum_replicate,
    List.length_cons, List.length_replicate, nsmul_eq_mul]
  norm_num

/-- The annualized Sharpe expression on the `ec1` differences is strictly
positive (the guard is taken and every factor is positive). -/
theorem sharpe_diff_ec1_pos : 0 < sharpeFormula (1 :: List.replicate 1439 0) := by
  have hstd : 0 < np.std (1 :: List.replicate 1439 0) := by
    rw [np.std]
    exact Real.sqrt_pos.mpr (by exact_mod_cast variance_diff_ec1_pos)
  unfold sharpeFormula
  rw [if_pos hstd]
  have hmean : (0 : ℝ) < ((np.mean (1 :: List.replicate 1439 0) : ℚ) : ℝ) := by
    rw [mean_diff_ec1]
    exact_mod_cast (by norm_num : (0 : ℚ) < 1 / 1440)
  exact mul_pos (div_pos hmean hstd) (Real.sqrt_pos.mpr (by norm_num))

/-- The 5th percentile of the `ec1` differences is `0`. -/
theorem percentile05_diff_ec1 : np.percentile05 (1 :: List.replicate 1439 0) = 0 := by
  refine percentile05_1440 _ (List.replicate 1439 0 ++ [1]) sortQ_diff_ec1
    (by rw [List.length_append, List.length_replicate, List.length_singleton]) ?_ ?_
  · rw [List.getD_eq_getElem?_getD,
      List.getElem?_append_left (by rw [List.length_replicate]; norm_num),
      List.getElem?_replicate_of_lt (by norm_num)]
    rfl
  · rw [List.getD_eq_getElem?_getD,
      List.getElem?_append_left (by rw [List.length_replicate]; norm_num),
      List.getElem?_replicate_of_lt (by norm_num)]
    rfl

/-- The `ec2` difference vector is already sorted. -/
theorem sorted_diff_ec2 :
    List.Sorted (· ≤ ·) (List.replicate 50 (-1 : ℚ) ++ List.replicate 1390 0) := by
  rw [List.Sorted, List.pairwise_append]
  refine ⟨sorted_le_replicate 50 (-1), sorted_le_replicate 1390 0, ?_⟩
  intro a ha b hb
  rw [List.eq_of_mem_replicate ha, List.eq_of_mem_replicate hb]
  norm_num

/-- The 5th percentile of the `ec2` differences is `0`. -/
theorem percentile05_diff_ec2 :
    np.percentile05 (List.replicate 50 (-1) ++ List.replicate 1390 0) = 0 := by
  refine percentile05_1440 _ _ (sortQ_sorted_eq sorted_diff_ec2)
    (by rw [List.length_append, List.length_replicate, List.length_replicate]) ?_ ?_
  · rw [List.getD_eq_getElem?_getD,
      List.getElem?_append_right (by rw [List.length_replicate]; norm_num),
      List.length_replicate]
    rw [List.getElem?_replicate_of_lt (by norm_num)]
    rfl
  · rw [List.getD_eq_getElem?_getD,
      List.getElem?_append_right (by rw [List.length_replicate]; norm_num),
      List.length_replicate]
    rw [List.getElem?_replicate_of_lt (by norm_num)]
    rfl

/-- Filtering a constant list keeps all or nothing. -/
theorem filter_replicate_q (p : ℚ → Bool) (n : ℕ) (a : ℚ) :
    (List.replicate n a).filter p = if p a then List.replicate n a else [] := by
  induction n with
  | zero => simp
  | succ m ih =>
    rw [List.replicate_succ, List.filter_cons]
    by_cases h : p a
    · rw [if_pos h, ih, if_pos h, if_pos h]
    · rw [if_neg h, ih, if_neg h, if_neg h]

/-- Mean of fifty `-1`s. -/
theorem mean_replicate_neg : np.mean (List.replicate 50 (-1 : ℚ)) = -1 := by
  simp only [np.mean, List.sum_replicate, List.length_replicate, nsmul_eq_mul]
  norm_num

/-- The expected shortfall of the `ec2` differences: the fifty `-1`s lie
strictly below the 5th percentile `0`, so the mean of the tail is `-1`. -/
theorem esFormula_diff_ec2 :
    esFormula (List.replicate 50 (-1) ++ List.replicate 1390 0) = some (-1) := by
  have hfa : (List.replicate 50 (-1 : ℚ)).filter (fun x => decide (x < 0)) =
      List.replicate 50 (-1) := by
    rw [filter_replicate_q, if_pos (by norm_num)]
  have hfb : (List.replicate 1390 (0 : ℚ)).filter (fun x => decide (x < 0)) = [] := by
    rw [filter_replicate_q, if_neg (by norm_num)]
  simp only [esFormula, percentile05_diff_ec2]
  rw [List.filter_append, hfa, hfb, List.append_nil]
  rw [if_neg fun h => nomatch h]
  rw [mean_replicate_neg]

/-- `calculate_additional_metrics` of `backtesting_analysis.py` never
returns on a curve with at least two points: `np.diff` is then non-empty,
the dict evaluation reaches the `beta` entry, which reads the missing
`price` key, and the function raises `KeyError`. -/
theorem analysis_errors (ec : List ℚ) (h : 2 ≤ ec.length) :
    analysis.calculate_additional_metrics ec = .error "KeyError" := by
  have hd : 0 < (np.diff ec).length := by
    rw [np_diff_length]
    omega
  simp only [analysis.calculate_additional_metrics]
  rw [if_pos hd]

/-- `max_consecutive_losses` on a single non-negative daily return: the
`groupby` yields no loss run, and `max()` of the empty sequence raises
`ValueError`. -/
theorem mcl_singleton_nonneg (x : ℚ) (h : 0 ≤ x) :
    maxConsecutiveLosses [x] = .error "ValueError" := by
  simp only [maxConsecutiveLosses, negRunLengths, if_neg (not_lt.mpr h), if_pos rfl,
    if_true, List.max?_nil]

/-- `max_consecutive_losses` on a single negative daily return: one loss
run of length one. -/
theorem mcl_singleton_neg (x : ℚ) (h : x < 0) :
    maxConsecutiveLosses [x] = .ok 1 := by
  simp only [maxConsecutiveLosses, negRunLengths, if_pos h]
  rfl

/-- A 1441-minute curve produces exactly 1440 percentage returns. -/
theorem returns_length_1440 (ec : List ℚ) (h : ec.length = 1441) :
    (List.zipWith (fun d p => d / p) (np.diff ec) ec.dropLast).length = 1440 := by
  rw [List.length_zipWith, np_diff_length, List.length_dropLast, h]
  omega

/-- `calculate_additional_metrics` of `backtesting_results.py` on a
1441-minute equity curve whose single reshaped day does not lose money: no
daily return is negative, so the `max_consecutive_losses` entry raises
`ValueError` (`max()` of an empty sequence) and the function returns
nothing. -/
theorem results_oneday_err (ec : List ℚ) (h : ec.length = 1441)
    (hs : 0 ≤ (List.zipWith (fun d p => d / p) (np.diff ec) ec.dropLast).sum) :
    results.calculate_additional_metrics ec = .error "ValueError" := by
  have hlen := returns_length_1440 ec h
  simp only [results.calculate_additional_metrics, hlen]
  rw [if_pos (by norm_num), if_pos (by norm_num), chunks1440_len_eq _ hlen]
  rw [List.map_singleton, mcl_singleton_nonneg _ hs]

/-- `calculate_additional_metrics` of `backtesting_results.py` on a
1441-minute equity curve whose single reshaped day loses money: the
function returns, with `sharpe_ratio = 0` (the `std` of one point is `0`),
`var` the day's total percentage return, an empty (`NaN`) expected
shortfall and one consecutive losing day. -/
theorem results_oneday_ok (ec : List ℚ) (h : ec.length = 1441)
    (hs : (List.zipWith (fun d p => d / p) (np.diff ec) ec.dropLast).sum < 0) :
    results.calculate_additional_metrics ec =
      .ok ⟨0, (List.zipWith (fun d p => d / p) (np.diff ec) ec.dropLast).sum, none, 1⟩ := by
  have hlen := returns_length_1440 ec h
  simp only [results.calculate_additional_metrics, hlen]
  rw [if_pos (by norm_num), if_pos (by norm_num), chunks1440_len_eq _ hlen]
  rw [List.map_singleton, mcl_singleton_neg _ hs]
  rw [sharpeFormula_singleton, percentile05_singleton, esFormula_singleton]

/-- Zipping two constant lists of equal length. -/
theorem zipWith_replicate_same (f : ℚ → ℚ → ℚ) (n : ℕ) (a b : ℚ) :
    List.zipWith f (List.replicate n a) (List.replicate n b) =
      List.replicate n (f a b) := by
  induction n with
  | zero => rfl
  | succ m ih =>
    rw [List.replicate_succ, List.replicate_succ, List.zipWith_cons_cons, ih,
      List.replicate_succ]

theorem dropLast_ec1 : ec1.dropLast = 100000 :: List.replicate 1439 100001 := by
  have h : List.replicate 1440 (100001 : ℚ) = List.replicate 1439 100001 ++ [100001] := by
    rw [show (1440 : ℕ) = 1439 + 1 from rfl, List.replicate_succ']
  rw [ec1, h, ← List.cons_append, List.dropLast_concat]

/-- The percentage returns of `ec1` sum to `1/100000`. -/
theorem returns_ec1_sum :
    (List.zipWith (fun d p => d / p) (np.diff ec1) ec1.dropLast).sum = 1 / 100000 := by
  rw [diff_ec1, dropLast_ec1, List.zipWith_cons_cons, zipWith_replicate_same]
  simp only [List.sum_cons, List.sum_replicate, nsmul_eq_mul]
  norm_num

/-- Last element of a non-empty constant list. -/
theorem getLast?_replicate (a : ℚ) (n : ℕ) :
    (List.replicate (n + 1) a).getLast? = some a := by
  induction n with
  | zero => rfl
  | succ m ih =>
    rw [List.replicate_succ, List.replicate_succ, List.getLast?_cons_cons,
      ← List.replicate_succ, ih]

/-- A 1441-minute equity curve: flat for a day, then a single 1-unit drop
in the last minute — its one reshaped day loses money, so the
`backtesting_results.py` metrics actually return on it. -/
def ec3 : List ℚ := List.replicate 1440 100000 ++ [99999]

theorem ec3_length : ec3.length = 1441 := by
  rw [ec3, List.length_append, List.length_replicate]
  rfl

/-- The raw differences of `ec3`. -/
theorem diff_ec3 : np.diff ec3 = List.replicate 1439 0 ++ [-1] := by
  have hlast : (List.replicate 1440 (100000 : ℚ)).getLast? = some 100000 := by
    rw [show (1440 : ℕ) = 1439 + 1 from rfl]
    exact getLast?_replicate 100000 1439
  rw [ec3, np_diff_append_cons _ 100000 _ _ hlast]
  rw [show (1440 : ℕ) = 1439 + 1 from rfl, np_diff_replicate]
  rw [show np.diff [(99999 : ℚ)] = [] from rfl]
  norm_num

theorem dropLast_ec3 : ec3.dropLast = List.replicate 1440 100000 := by
  rw [ec3, List.dropLast_concat]

/-- The percentage returns of `ec3`. -/
theorem returns_ec3 :
    List.zipWith (fun d p => d / p) (np.diff ec3) ec3.dropLast =
      List.replicate 1439 0 ++ [-1 / 100000] := by
  have hrep : List.replicate 1440 (100000 : ℚ) =
      List.replicate 1439 100000 ++ [100000] := by
    rw [show (1440 : ℕ) = 1439 + 1 from rfl, List.replicate_succ']
  rw [diff_ec3, dropLast_ec3, hrep,
    List.zipWith_append _ _ _ _ _ (by rw [List.length_replicate, List.length_replicate]),
    zipWith_replicate_same]
  norm_num

/-- The percentage returns of `ec3` sum to `-1/100000`. -/
theorem returns_ec3_sum :
    (List.zipWith (fun d p => d / p) (np.diff ec3) ec3.dropLast).sum = -1 / 100000 := by
  rw [returns_ec3, List.sum_append, List.sum_replicate]
  simp only [nsmul_eq_mul, List.sum_cons, List.sum_nil]
  norm_num

/-- On `ec3` the `backtesting_results.py` metrics return a value. -/
theorem results_ec3_ok :
    results.calculate_additional_metrics ec3 = .ok ⟨0, -1 / 100000, none, 1⟩ := by
  have hs : (List.zipWith (fun d p => d / p) (np.diff ec3) ec3.dropLast).sum < 0 := by
    rw [returns_ec3_sum]
    norm_num
  rw [results_oneday_ok ec3 ec3_length hs, returns_ec3_sum]

/-- Claim C2 as stated fails: no input makes both versions *return*
different metric dicts.  The `backtesting_analysis.py` version raises
`KeyError` at the `beta` entry on every curve with a non-empty difference
vector — so it never returns on a non-constant curve, `ec1` and `ec2`
included — and on the rise-only curve `ec1` the `backtesting_results.py`
version also raises: no daily return is negative, so
`max_consecutive_losses` takes `max()` of an empty sequence
(`ValueError`). -/
theorem claim2_counterexample :
    analysis.calculate_additional_metrics ec1 = .error "KeyError" ∧
    analysis.calculate_additional_metrics ec2 = .error "KeyError" ∧
    results.calculate_additional_metrics ec1 = .error "ValueError" := by
  refine ⟨analysis_errors ec1 ?_, analysis_errors ec2 ?_,
    results_oneday_err ec1 ec1_length ?_⟩
  · rw [ec1_length]
    norm_num
  · rw [ec2_length]
    norm_num
  · rw [returns_ec1_sum]
    norm_num

/-- Claim C2, amended: the two versions of `calculate_additional_metrics`
do recompute the summary statistics inconsistently, but not as returned
dict values — the `backtesting_analysis.py` version raises `KeyError` on
every curve with at least two points (the `beta` entry reads the missing
`price` key; even past it, `itertools` is unimported) and never returns on
a non-constant curve.  The two functions are still not extensionally
equal: on the one-losing-day curve `ec3` the `backtesting_results.py`
version returns `sharpe_ratio = 0`, `var = -1/100000`, a `NaN` expected
shortfall and one consecutive loss, while the analysis version raises.
And the statistics the two pipelines feed to the shared formulas differ on
a non-constant curve: on `ec1` the reshaped daily returns give a Sharpe
ratio of `0` and a 5th percentile of `1/100000`, where the raw differences
give a strictly positive Sharpe ratio and percentile `0`; on `ec2` the
daily returns' expected shortfall is `NaN`, the raw differences' is `-1`. -/
theorem claim2_metrics_differ :
    (∀ ec : List ℚ, 2 ≤ ec.length →
      analysis.calculate_additional_metrics ec = .error "KeyError") ∧
    results.calculate_additional_metrics ec3 = .ok ⟨0, -1 / 100000, none, 1⟩ ∧
    analysis.calculate_additional_metrics ec3 = .error "KeyError" ∧
    results.calculate_additional_metrics ≠ analysis.calculate_additional_metrics ∧
    sharpeFormula ((chunks1440 (List.zipWith (fun d p => d / p)
      (np.diff ec1) ec1.dropLast)).map List.sum) = 0 ∧
    sharpeFormula (np.diff ec1) ≠ 0 ∧
    np.percentile05 ((chunks1440 (List.zipWith (fun d p => d / p)
      (np.diff ec1) ec1.dropLast)).map List.sum) = 1 / 100000 ∧
    np.percentile05 (np.diff ec1) = 0 ∧
    esFormula ((chunks1440 (List.zipWith (fun d p => d / p)
      (np.diff ec2) ec2.dropLast)).map List.sum) = none ∧
    esFormula (np.diff ec2) = some (-1) := by
  have hd1 := returns_length_1440 ec1 ec1_length
  have hd2 := returns_length_1440 ec2 ec2_length
  refine ⟨analysis_errors, results_ec3_ok, ?_, ?_, ?_, ?_, ?_, ?_, ?_, ?_⟩
  · refine analysis_errors ec3 ?_
    rw [ec3_length]
    norm_num
  · intro heq
    have h := congrFun heq ec3
    have ha : analysis.calculate_additional_metrics ec3 = .error "KeyError" := by
      refine analysis_errors ec3 ?_
      rw [ec3_length]
      norm_num
    rw [results_ec3_ok, ha] at h
    exact Except.noConfusion h
  · rw [chunks1440_len_eq _ hd1, List.map_singleton, sharpeFormula_singleton]
  · rw [diff_ec1]
    exact ne_of_gt sharpe_diff_ec1_pos
  · rw [chunks1440_len_eq _ hd1, List.map_singleton, percentile05_singleton,
      returns_ec1_sum]
  · rw [diff_ec1]
    exact percentile05_diff_ec1
  · rw [chunks1440_len_eq _ hd2, List.map_singleton, esFormula_singleton]
  · rw [diff_ec2]
    exact esFormula_diff_ec2

/-- Witness for the amended claim C2: its universally quantified clause
instantiated at the concrete curve `ec3`, whose length bound is discharged
by computation. -/
theorem claim2_witness :
    2 ≤ ec3.length ∧ analysis.calculate_additional_metrics ec3 = .error "KeyError" :=
  ⟨by rw [ec3_length]; norm_num,
    claim2_metrics_differ.1 ec3 (by rw [ec3_length]; norm_num)⟩
